import Mathlib

/-!
# lakeFS: the pyramid tiered file cache and the gateway path splitter

A shallow embedding of `pyramid/tierFS.go`, `pyramid/file.go`,
`pyramid/shared.go` and of `SplitFirst` / `servePathBased` from
`gateway/handler.go`, with the results proved about them.

Conventions of the embedding:

* Go strings are byte sequences; they are lists of characters here, one
  character per byte.
* The Go standard library functions the code calls (`strings.TrimPrefix`,
  `strings.SplitN`, `path.Clean`, `path.Join`, the `os` file calls,
  `io.Copy`) are embedded next to the code, after their Go sources and
  documentation.
* Methods that change state take the state and return the new one. The
  local disk is a table from path to entry, and a call that takes a path
  resolves it through the directories above it; an `*os.File` is an index
  into a table of open descriptors, so that the closure a handle carries
  and the handle itself share the descriptor, as the pointer does in Go.
* A call returns a value, an error, or panics; a nil function value that is
  called panics.
* `block.Adapter` is an interface outside the sources: the methods take any
  implementation of its `Put` and `Get`.
-/

set_option autoImplicit false

namespace LakeFS

/-- A Go string, one character per byte. -/
abbrev GoString := List Char

/-- A byte payload. -/
abbrev Bytes := List UInt8

/-! ## Go standard library: `strings` -/

namespace strings

/-- Go `strings.HasPrefix`. -/
def HasPrefix (s pre : GoString) : Bool := pre.isPrefixOf s

/-- Go `strings.TrimPrefix`: `s` without the leading `pre`, or `s` itself. -/
def TrimPrefix (s pre : GoString) : GoString :=
  if HasPrefix s pre then s.drop pre.length else s

/-- Go `strings.Index`: position of the first occurrence of `sep` in `s`. -/
def Index : GoString → GoString → Option Nat
  | [], sep => if sep = [] then some 0 else none
  | c :: s, sep =>
    if sep.isPrefixOf (c :: s) then some 0
    else (Index s sep).map (· + 1)

/-- Go `strings.Count` for a non-empty `sep`: non-overlapping occurrences,
counted with fuel for the remaining length. -/
def CountLoop (sep : GoString) : Nat → GoString → Nat
  | 0, _ => 0
  | k + 1, s =>
    match Index s sep with
    | none => 0
    | some m => 1 + CountLoop sep k (s.drop (m + sep.length))

/-- Go `strings.Count` (non-empty separator). -/
def Count (s sep : GoString) : Nat := CountLoop sep s.length s

/-- The loop of Go `genSplit`: `for i < n { m := Index(s, sep); if m < 0 { break };
a[i] = s[:m]; s = s[m+len(sep):]; i++ }; a[i] = s`, with `k = n - i`. -/
def genSplitLoop (sep : GoString) : Nat → GoString → List GoString
  | 0, s => [s]
  | k + 1, s =>
    match Index s sep with
    | none => [s]
    | some m => s.take m :: genSplitLoop sep k (s.drop (m + sep.length))

/-- Go `strings.SplitN(s, sep, n)` for a non-empty separator: `n = 0` gives
nil, `n < 0` all substrings, `n > 0` at most `n` substrings, the last one
the unsplit remainder. -/
def SplitN (s sep : GoString) (n : Int) : List GoString :=
  if n = 0 then []
  else
    let n' : Nat := if n < 0 then Count s sep + 1 else n.toNat
    genSplitLoop sep (n' - 1) s

/-- Go `strings.Join`. -/
def Join (elems : List GoString) (sep : GoString) : GoString :=
  sep.intercalate elems

end strings

/-! ## Go standard library: `path` -/

namespace path

/-- The backtracking loop of `path.Clean` on a `..` element:
`for out.w > dotdot && out.index(out.w) != '/' { out.w-- }`. -/
def backtrack (buf : List Char) (dotdot : Nat) : Nat → Nat
  | 0 => 0
  | w + 1 =>
    if w + 1 > dotdot ∧ buf.getD (w + 1) '/' ≠ '/' then backtrack buf dotdot w
    else w + 1

/-- The main loop of Go `path.Clean`: `rest` is `path[r:]`, `out` the
bytes written so far (`out.w = out.length`). Each round consumes at least
one byte, so fuel equal to the length of the path is enough. -/
def cleanLoop (rooted : Bool) : Nat → List Char → List Char → Nat → List Char
  | 0, _, out, _ => out
  | _ + 1, [], out, _ => out
  | k + 1, c :: rest, out, dotdot =>
    if c = '/' then
      -- empty path element
      cleanLoop rooted k rest out dotdot
    else if c = '.' ∧ (rest = [] ∨ rest.head? = some '/') then
      -- . element
      cleanLoop rooted k rest out dotdot
    else if c = '.' ∧ rest.head? = some '.' ∧
        (rest.tail = [] ∨ rest.tail.head? = some '/') then
      -- .. element: remove to last /
      if out.length > dotdot then
        cleanLoop rooted k rest.tail (out.take (backtrack out dotdot (out.length - 1))) dotdot
      else if !rooted then
        let out1 := (if out.length > 0 then out ++ ['/'] else out) ++ ['.', '.']
        cleanLoop rooted k rest.tail out1 out1.length
      else
        cleanLoop rooted k rest.tail out dotdot
    else
      -- real path element: add slash if needed, copy element
      let out1 :=
        if (rooted ∧ out.length ≠ 1) ∨ (!rooted ∧ out.length ≠ 0) then out ++ ['/'] else out
      cleanLoop rooted k ((c :: rest).dropWhile (· ≠ '/'))
        (out1 ++ (c :: rest).takeWhile (· ≠ '/')) dotdot

/-- Go `path.Clean`. -/
def Clean (p : GoString) : GoString :=
  if p = [] then ['.']
  else
    let rooted := p.head? = some '/'
    let out :=
      if rooted then cleanLoop true p.length p.tail ['/'] 1
      else cleanLoop false p.length p [] 0
    if out = [] then ['.'] else out

/-- Go `path.Join` of two elements: empty elements are ignored, the rest is
joined with slashes and cleaned; all empty gives the empty string. -/
def Join (a b : GoString) : GoString :=
  if a ≠ [] then Clean (strings.Join [a, b] ['/'])
  else if b ≠ [] then Clean (strings.Join [b] ['/'])
  else []

/-- Go `path.Split`: the path up to and including the last slash, and what
follows it. -/
def Split (p : GoString) : GoString × GoString :=
  let file := (p.reverse.takeWhile (· ≠ '/')).reverse
  (p.take (p.length - file.length), file)

/-- Go `path.Dir`: all but the last element of the path, cleaned. -/
def Dir (p : GoString) : GoString := Clean (Split p).1

end path

/-! ## `gateway/handler.go` -/

namespace gateway

/-- The constant `path.Separator` of the package `gateway/path`. -/
def Separator : GoString := ['/']

/-- Go `SplitFirst`. -/
def SplitFirst (pth : GoString) (parts : Int) : List GoString × Bool :=
  let pth := strings.TrimPrefix pth Separator
  let pathParts := strings.SplitN pth Separator parts
  if (pathParts.length : Int) < parts then ([], false)
  else if pathParts.length = 1 ∧ (pathParts.headD []).length = 0 then ([], false)
  else (pathParts, true)

/-- What is outside `handler.go`: `net.SplitHostPort` (its host result),
`strings.EqualFold` and the validators of the package `index` (true when
the validation passes). -/
structure Env where
  SplitHostPort : GoString → GoString
  EqualFold : GoString → GoString → Bool
  ValidateRepoId : GoString → Bool
  ValidateRef : GoString → Bool
  ValidatePath : GoString → Bool

/-- The fields of `http.Request` the router reads. -/
structure Request where
  Host : GoString
  Path : GoString
  Method : GoString

/-- The `http.Handler` a routing function returns; `none` is Go `nil`. -/
inductive Route where
  | none
  | NotFoundHandler
  | unsupportedOperationHandler
  | PathOperationHandler (repositoryId ref key op : GoString)
  | RepoOperationHandler (repositoryId op : GoString)
  | ListBuckets
  deriving DecidableEq, Repr

/-- Go `hostOnly`. -/
def hostOnly (env : Env) (hostname : GoString) : GoString :=
  if ':' ∈ hostname then env.SplitHostPort hostname else hostname

/-- Go `Handler.pathBasedHandler`. -/
def pathBasedHandler (method repositoryId ref key : GoString) : Route :=
  if method = "DELETE".data then .PathOperationHandler repositoryId ref key "DeleteObject".data
  else if method = "POST".data then .PathOperationHandler repositoryId ref key "PostObject".data
  else if method = "GET".data then .PathOperationHandler repositoryId ref key "GetObject".data
  else if method = "HEAD".data then .PathOperationHandler repositoryId ref key "HeadObject".data
  else if method = "PUT".data then .PathOperationHandler repositoryId ref key "PutObject".data
  else .NotFoundHandler

/-- Go `Handler.repositoryBasedHandler`. -/
def repositoryBasedHandler (method repositoryId : GoString) : Route :=
  if method = "DELETE".data ∨ method = "PUT".data then .unsupportedOperationHandler
  else if method = "HEAD".data then .RepoOperationHandler repositoryId "HeadBucket".data
  else if method = "POST".data then .RepoOperationHandler repositoryId "DeleteObjects".data
  else if method = "GET".data then .RepoOperationHandler repositoryId "ListObjects".data
  else .NotFoundHandler

/-- Go `Handler.servePathBased`, for a handler with bare domain `BareDomain`. -/
def servePathBased (env : Env) (BareDomain : GoString) (r : Request) : Route :=
  let host := hostOnly env r.Host
  if !env.EqualFold host (hostOnly env BareDomain) then .none
  else
    let s3 := SplitFirst r.Path 3
    if s3.2 then
      let repositoryId := s3.1.getD 0 []
      let ref := s3.1.getD 1 []
      let key := s3.1.getD 2 []
      if !(env.ValidateRepoId repositoryId && env.ValidateRef ref && env.ValidatePath key) then
        .NotFoundHandler
      else pathBasedHandler r.Method repositoryId ref key
    -- Paths for repository and ref only (none exist)
    else if (SplitFirst r.Path 2).2 then .NotFoundHandler
    else
      let s1 := SplitFirst r.Path 1
      if s1.2 then
        -- Paths for bare repository
        let repositoryId := s1.1.getD 0 []
        if !env.ValidateRepoId repositoryId then .NotFoundHandler
        else repositoryBasedHandler r.Method repositoryId
      -- no repository given
      else if r.Method = "GET".data then .ListBuckets
      else .NotFoundHandler

end gateway

/-! ## The environment of `pyramid`: errors, local disk, block adapter -/

namespace pyramid

/-- Go `error` values. `wrap msg e` is `fmt.Errorf(msg + ": %w", e)`. -/
inductive GoError where
  | ErrNotExist
  | ErrExist
  | ErrIsDir
  | ErrNotDir
  | ErrClosed
  | ErrBadDescriptor
  | EOF
  | adapter (code : Nat)
  | message (msg : GoString)
  | wrap (msg : GoString) (err : GoError)
  deriving DecidableEq, Repr

/-- The result of a call: a value, a returned error, or a run-time panic. -/
inductive Result (α : Type) where
  | ok (val : α)
  | err (e : GoError)
  | panic
  deriving DecidableEq, Repr

/-- An entry of the local disk. -/
inductive Node where
  | file (data : Bytes)
  | dir
  deriving DecidableEq, Repr

/-- The state behind an `*os.File`: the path it was opened on, the read/write
position, whether it was opened for writing, whether it is closed. -/
structure OsFile where
  name : GoString
  offset : Nat
  writable : Bool
  closed : Bool
  deriving DecidableEq, Repr

/-- The local machine: the disk as a table from path to entry, the open file
table (an `*os.File` is an index into it) and the clock read by `time.Now`.
A call that takes a path resolves it as the operating system does: every
directory above it has to be a directory of the table (`os.parents`). The
table is keyed by the path as it is given, and a descriptor refers to its
file by path. -/
structure OS where
  disk : GoString → Option Node
  files : List OsFile
  now : Nat

/-- Function update at one key. -/
def setAt {V : Type} (m : GoString → V) (k : GoString) (v : V) : GoString → V :=
  fun x => if x = k then v else m x

/-- An `io.Reader` as seen by its consumer: the bytes it delivers, and the
error it then ends in (`none` is a clean end of file). -/
structure Stream where
  data : Bytes
  err : Option GoError
  deriving DecidableEq, Repr

/-- Go `block.ObjectPointer`. -/
structure ObjectPointer where
  StorageNamespace : GoString
  Identifier : GoString
  deriving DecidableEq, Repr

/-- The two methods of `block.Adapter` the package calls, over an adapter
state `R`. `Put` returns its error (`none` is `nil`) and the new state. -/
structure Adapter (R : Type) where
  Put : R → ObjectPointer → Int → Stream → Option GoError × R
  Get : R → ObjectPointer → Int → Except GoError Stream

namespace os

/-- Paths that are directories on every machine: the root, the working
directory, and the directories above the working directory. -/
def alwaysDir : GoString → Bool
  | ['/'] => true
  | ['.'] => true
  | ['.', '.'] => true
  | '.' :: '.' :: '/' :: q => alwaysDir q
  | _ => false

/-- What is at a path: a directory at the paths of `alwaysDir`, the entry
of the table elsewhere. -/
def entry (disk : GoString → Option Node) (name : GoString) : Option Node :=
  if alwaysDir name then some .dir else disk name

/-- The directories above a path, outermost first, up to the first one
that exists on every machine: `path.Dir` iterated. Every step shortens the
path, so fuel equal to its length is enough. -/
def ancestorsLoop : Nat → GoString → List GoString
  | 0, _ => []
  | k + 1, p =>
    if alwaysDir (path.Dir p) then [] else ancestorsLoop k (path.Dir p) ++ [path.Dir p]

/-- The directories above a path, outermost first. -/
def ancestors (name : GoString) : List GoString := ancestorsLoop name.length name

/-- Path resolution along a list of directories, outermost first: a
missing one is `ENOENT`, a regular file in the place of one is `ENOTDIR`. -/
def walk (disk : GoString → Option Node) : List GoString → Except GoError Unit
  | [] => .ok ()
  | d :: ds =>
    match disk d with
    | some .dir => walk disk ds
    | some (.file _) => .error .ErrNotDir
    | none => .error .ErrNotExist

/-- Resolution of the directories above a path; the empty path names
nothing (`ENOENT`). -/
def parents (disk : GoString → Option Node) (name : GoString) : Except GoError Unit :=
  if name = [] then .error .ErrNotExist else walk disk (ancestors name)

/-- Go `os.Open`: read-only descriptor at position 0. -/
def Open (o : OS) (name : GoString) : Except GoError (Nat × OS) :=
  match parents o.disk name with
  | .error e => .error e
  | .ok _ =>
    match entry o.disk name with
    | none => .error .ErrNotExist
    | some _ => .ok (o.files.length, { o with files := o.files ++ [⟨name, 0, false, false⟩] })

/-- Go `os.Create`: create or truncate, read-write descriptor at position 0. -/
def Create (o : OS) (name : GoString) : Except GoError (Nat × OS) :=
  match parents o.disk name with
  | .error e => .error e
  | .ok _ =>
    match entry o.disk name with
    | some .dir => .error .ErrIsDir
    | _ => .ok (o.files.length,
        { o with disk := setAt o.disk name (some (.file [])),
                 files := o.files ++ [⟨name, 0, true, false⟩] })

/-- Go `os.Mkdir`. -/
def Mkdir (o : OS) (name : GoString) : Except GoError OS :=
  match parents o.disk name with
  | .error e => .error e
  | .ok _ =>
    match entry o.disk name with
    | some _ => .error .ErrExist
    | none => .ok { o with disk := setAt o.disk name (some .dir) }

/-- The loop of Go `os.MkdirAll` over the directories above the path and
the path itself, outermost first: a directory is kept, a missing one is
made, a regular file in the place of one is an error. -/
def mkdirs (disk : GoString → Option Node) : List GoString → Except GoError (GoString → Option Node)
  | [] => .ok disk
  | d :: ds =>
    match entry disk d with
    | some .dir => mkdirs disk ds
    | some (.file _) => .error .ErrNotDir
    | none => mkdirs (setAt disk d (some .dir)) ds

/-- Go `os.MkdirAll`. -/
def MkdirAll (o : OS) (name : GoString) : Except GoError OS :=
  if name = [] then .error .ErrNotExist
  else
    match mkdirs o.disk (ancestors name ++ [name]) with
    | .error e => .error e
    | .ok disk => .ok { o with disk := disk }

/-- Go `os.Rename` of a regular file. -/
def Rename (o : OS) (oldpath newpath : GoString) : Except GoError OS :=
  match parents o.disk oldpath, parents o.disk newpath with
  | .error e, _ => .error e
  | _, .error e => .error e
  | .ok _, .ok _ =>
    match entry o.disk oldpath, entry o.disk newpath with
    | none, _ => .error .ErrNotExist
    | some .dir, _ => .error .ErrIsDir
    | some (.file _), some .dir => .error .ErrIsDir
    | some (.file d), _ =>
      .ok { o with disk := setAt (setAt o.disk oldpath none) newpath (some (.file d)) }

/-- Go `os.Remove` of a regular file (the removal of a local copy out of
band). -/
def Remove (o : OS) (name : GoString) : Except GoError OS :=
  match parents o.disk name with
  | .error e => .error e
  | .ok _ =>
    match entry o.disk name with
    | none => .error .ErrNotExist
    | some .dir => .error .ErrIsDir
    | some (.file _) => .ok { o with disk := setAt o.disk name none }

/-- The content a descriptor can read: the file behind an open descriptor. -/
def content (o : OS) (fh : Nat) : Except GoError (OsFile × Bytes) :=
  match o.files[fh]? with
  | none => .error .ErrBadDescriptor
  | some f =>
    if f.closed then .error .ErrClosed
    else match o.disk f.name with
      | some (.file d) => .ok (f, d)
      | some .dir => .error .ErrIsDir
      | none => .error .ErrNotExist

/-- Replace the state of descriptor `fh`. -/
def setFile (o : OS) (fh : Nat) (f : OsFile) : OS :=
  { o with files := o.files.set fh f }

/-- Go `(*os.File).Read` with a buffer of `n` bytes: the bytes read and the
error (`io.EOF` at end of file); the position advances. -/
def Read (o : OS) (fh : Nat) (n : Nat) : (Bytes × Option GoError) × OS :=
  match content o fh with
  | .error e => (([], some e), o)
  | .ok (f, d) =>
    if n = 0 then (([], none), o)
    else if d.length ≤ f.offset then (([], some .EOF), o)
    else (((d.drop f.offset).take n, none),
      setFile o fh { f with offset := f.offset + ((d.drop f.offset).take n).length })

/-- Go `(*os.File).ReadAt` with a buffer of `n` bytes at offset `off`; a
short read comes with `io.EOF`. The position does not move. -/
def ReadAt (o : OS) (fh : Nat) (n : Nat) (off : Nat) : Bytes × Option GoError :=
  match content o fh with
  | .error e => ([], some e)
  | .ok (_, d) =>
    ((d.drop off).take n, if ((d.drop off).take n).length < n then some .EOF else none)

/-- Go `(*os.File).Write`: the bytes go to the current position, the file
is extended (zero-filled up to the position) as needed. -/
def Write (o : OS) (fh : Nat) (p : Bytes) : (Nat × Option GoError) × OS :=
  match content o fh with
  | .error e => ((0, some e), o)
  | .ok (f, d) =>
    if !f.writable then ((0, some .ErrBadDescriptor), o)
    else
      let before := d.take f.offset ++ List.replicate (f.offset - d.length) 0
      let d' := before ++ p ++ d.drop (f.offset + p.length)
      ((p.length, none),
        setFile { o with disk := setAt o.disk f.name (some (.file d')) } fh
          { f with offset := f.offset + p.length })

/-- Go `(*os.File).Stat().Size()`; a directory reports size 0 here. -/
def StatSize (o : OS) (fh : Nat) : Except GoError Int :=
  match o.files[fh]? with
  | none => .error .ErrBadDescriptor
  | some f =>
    if f.closed then .error .ErrClosed
    else match o.disk f.name with
      | some (.file d) => .ok d.length
      | some .dir => .ok 0
      | none => .error .ErrNotExist

/-- Go `(*os.File).Close`. -/
def Close (o : OS) (fh : Nat) : Option GoError × OS :=
  match o.files[fh]? with
  | none => (some .ErrBadDescriptor, o)
  | some f =>
    if f.closed then (some .ErrClosed, o)
    else (none, setFile o fh { f with closed := true })

/-- The descriptor `fh` used as an `io.Reader`: what a consumer reading it
to the end receives, from the current position of the descriptor. -/
def reader (o : OS) (fh : Nat) : Stream :=
  match content o fh with
  | .error e => ⟨[], some e⟩
  | .ok (f, d) => ⟨d.drop f.offset, none⟩

/-- Go `io.Copy(writer, reader)` into descriptor `fh`: everything the reader
delivers is written; the error of the reader or of the write is returned. -/
def Copy (o : OS) (fh : Nat) (src : Stream) : Option GoError × OS :=
  match src.data with
  | [] => (src.err, o)
  | _ :: _ =>
    match Write o fh src.data with
    | ((_, some e), o') => (some e, o')
    | ((_, none), o') => (src.err, o')

end os

/-! ## `pyramid/shared.go` -/

/-- Go `SharedLocalStorage`; `F` is what the registry holds for a file
system. The map `filesystems` is a table with an optional entry per key. -/
structure SharedLocalStorage (F : Type) where
  filesystems : GoString → Option F
  basepath : GoString

/-- Go `NewSharedLocalStorage`. -/
def NewSharedLocalStorage (F : Type) (o : OS) (baseFolderPath : GoString) :
    Except GoError (SharedLocalStorage F) × OS :=
  match os.MkdirAll o baseFolderPath with
  | .error e => (.error (.wrap "creating base dir".data e), o)
  | .ok o' => (.ok { filesystems := fun _ => none, basepath := baseFolderPath }, o')

/-- Go `SharedLocalStorage.Register`: the returned directory or error, the
registry and the machine afterwards. -/
def SharedLocalStorage.Register {F : Type} (sd : SharedLocalStorage F) (o : OS)
    (fsName : GoString) (fs : F) : Except GoError GoString × SharedLocalStorage F × OS :=
  match sd.filesystems fsName with
  | some _ => (.error (.message ("file system ".data ++ fsName ++ " already registered".data)), sd, o)
  | none =>
    let dirPath := path.Join sd.basepath fsName
    match os.Mkdir o dirPath with
    | .error e => (.error (.wrap "creating fs dir".data e), sd, o)
    | .ok o' => (.ok dirPath, { sd with filesystems := setAt sd.filesystems fsName (some fs) }, o')

/-! ## `pyramid/tierFS.go` and `pyramid/file.go` -/

/-- Go `ImmutableTierFS` (the adapter is passed to the methods; the maps
read 0, respectively nothing, at an absent key). -/
structure ImmutableTierFS where
  refCount : GoString → Int
  lastAccess : GoString → Option Nat
  fsName : GoString
  adapterNS : GoString
  localBaseDir : GoString
  remotePrefix : GoString

/-- Go `fsBlockStoragePrefix`. -/
def fsBlockStoragePrefix : GoString := "_lakeFS".data

/-- Everything the methods of one file system read and write: the local
machine, the state of the block adapter and the file system object. -/
structure World (R : Type) where
  os : OS
  remote : R
  tfs : ImmutableTierFS

/-- Go `File`: a descriptor with its hooks; a hook that is `none` is a nil
function value. -/
structure File (R : Type) where
  fh : Nat
  access : Option (World R → World R)
  release : Option (World R → World R)
  close : Option (Int → World R → Option GoError × World R)
  size : Int

/-- Go `NewTierFS`: the file system and registry after registration; a
failed registration panics. The registry holds the name of the file system
in place of the pointer to it. -/
def NewTierFS (localStorage : SharedLocalStorage GoString) (o : OS) (fsName adapterNS : GoString) :
    Result ImmutableTierFS × SharedLocalStorage GoString × OS :=
  let fs : ImmutableTierFS :=
    { refCount := fun _ => 0, lastAccess := fun _ => none, fsName := fsName,
      adapterNS := adapterNS, localBaseDir := [],
      remotePrefix := path.Join fsBlockStoragePrefix fsName }
  match localStorage.Register o fsName fsName with
  | (.error _, sd, o') => (.panic, sd, o')
  | (.ok fsDir, sd, o') => (.ok { fs with localBaseDir := fsDir }, sd, o')

/-- Go `ImmutableTierFS.localpath`. -/
def ImmutableTierFS.localpath (tfs : ImmutableTierFS) (filename : GoString) : GoString :=
  path.Join tfs.localBaseDir filename

/-- Go `ImmutableTierFS.blockStoragePath`. -/
def ImmutableTierFS.blockStoragePath (tfs : ImmutableTierFS) (filename : GoString) : GoString :=
  path.Join tfs.remotePrefix filename

/-- Go `ImmutableTierFS.objPointer`. -/
def ImmutableTierFS.objPointer (tfs : ImmutableTierFS) (filename : GoString) : ObjectPointer :=
  { StorageNamespace := tfs.adapterNS, Identifier := tfs.blockStoragePath filename }

/-- Go `ImmutableTierFS.Store`. The source ends after the rename without a
return statement; the embedding returns nil there. -/
def Store {R : Type} (A : Adapter R) (originalPath filename : GoString) (w : World R) :
    Result Unit × World R :=
  match os.Open w.os originalPath with
  | .error e => (.err (.wrap "open file".data e), w)
  | .ok (f, o1) =>
    match os.StatSize o1 f with
    | .error e => (.err (.wrap "file stat".data e), { w with os := o1 })
    | .ok size =>
      match A.Put w.remote (w.tfs.objPointer filename) size (os.reader o1 f) with
      | (some e, r1) => (.err (.wrap "adapter put".data e), { w with os := o1, remote := r1 })
      | (none, r1) =>
        match os.Close o1 f with
        | (some e, o2) => (.err (.wrap "closing file".data e), { w with os := o2, remote := r1 })
        | (none, o2) =>
          match os.Rename o2 originalPath (w.tfs.localpath filename) with
          | .error e => (.err (.wrap "rename file".data e), { w with os := o2, remote := r1 })
          | .ok o3 => (.ok (), { w with os := o3, remote := r1 })

/-- Go `ImmutableTierFS.Create`. -/
def Create {R : Type} (A : Adapter R) (filename : GoString) (w : World R) :
    Result (File R) × World R :=
  let localpath := w.tfs.localpath filename
  match os.Create w.os localpath with
  | .error e => (.err (.wrap "creating file".data e), w)
  | .ok (fh, o1) =>
    (.ok { fh := fh
           access := some fun w => w
           release := some fun w => w
           close := some fun size w =>
             match A.Put w.remote (w.tfs.objPointer filename) size (os.reader w.os fh) with
             | (e, r1) => (e, { w with remote := r1 })
           size := 0 },
     { w with os := o1 })

/-- Go `ImmutableTierFS.readFromBlockStorage`; the two deferred `Close`
calls run on every return after their `defer`. -/
def readFromBlockStorage {R : Type} (A : Adapter R) (filename : GoString) (w : World R) :
    Except GoError Nat × World R :=
  match A.Get w.remote (w.tfs.objPointer filename) 0 with
  | .error e => (.error (.wrap "read from block storage".data e), w)
  | .ok reader =>
    let localPath := w.tfs.localpath filename
    match os.Create w.os localPath with
    | .error e => (.error (.wrap "creating file".data e), w)
    | .ok (writer, o1) =>
      match os.Copy o1 writer reader with
      | (some e, o2) =>
        (.error (.wrap "copying date to file".data e), { w with os := (os.Close o2 writer).2 })
      | (none, o2) =>
        match os.Open o2 localPath with
        | .error e => (.error (.wrap "open file".data e), { w with os := (os.Close o2 writer).2 })
        | .ok (fh, o3) => (.ok fh, { w with os := (os.Close o3 writer).2 })

/-- Go `ImmutableTierFS.Open`. The returned `File` has no `close` hook: the
composite literal does not set the field, which leaves it nil. -/
def Open {R : Type} (A : Adapter R) (filename : GoString) (w : World R) :
    Result (File R) × World R :=
  let localPath := w.tfs.localpath filename
  let opened : Except GoError Nat × World R :=
    match os.Open w.os localPath with
    | .ok (fh, o1) => (.ok fh, { w with os := o1 })
    | .error err =>
      if err = .ErrNotExist then
        readFromBlockStorage A filename w
      else (.error (.wrap "open file".data err), w)
  match opened with
  | (.error e, w1) => (.err e, w1)
  | (.ok fh, w1) =>
    (.ok { fh := fh
           access := some fun w =>
             { w with tfs := { w.tfs with lastAccess := setAt w.tfs.lastAccess filename (some w.os.now) } }
           release := some fun w =>
             { w with tfs := { w.tfs with refCount := setAt w.tfs.refCount filename (w.tfs.refCount filename - 1) } }
           close := none
           size := 0 },
     { w1 with tfs := { w1.tfs with refCount := setAt w1.tfs.refCount filename (w1.tfs.refCount filename + 1) } })

/-- Go `File.Read` with a buffer of `n` bytes. -/
def File.Read {R : Type} (f : File R) (n : Nat) (w : World R) :
    Result (Bytes × Option GoError) × World R :=
  match f.access with
  | none => (.panic, w)
  | some access =>
    let w1 := access w
    match os.Read w1.os f.fh n with
    | (res, o2) => (.ok res, { w1 with os := o2 })

/-- Go `File.ReadAt` with a buffer of `n` bytes. -/
def File.ReadAt {R : Type} (f : File R) (n : Nat) (off : Nat) (w : World R) :
    Result (Bytes × Option GoError) × World R :=
  match f.access with
  | none => (.panic, w)
  | some access =>
    let w1 := access w
    (.ok (os.ReadAt w1.os f.fh n off), w1)

/-- Go `File.Write`: the result `(s, err)`, the handle with its updated
`size`, and the world. -/
def File.Write {R : Type} (f : File R) (p : Bytes) (w : World R) :
    Result (Nat × Option GoError) × File R × World R :=
  match f.access with
  | none => (.panic, f, w)
  | some access =>
    let w1 := access w
    match os.Write w1.os f.fh p with
    | ((s, err), o2) => (.ok (s, err), { f with size := f.size + s }, { w1 with os := o2 })

/-- Go `File.Close`. -/
def File.Close {R : Type} (f : File R) (w : World R) : Result Unit × World R :=
  match f.release with
  | none => (.panic, w)
  | some release =>
    let w1 := release w
    match f.close with
    | none => (.panic, w1)
    | some close =>
      match close f.size w1 with
      | (some err, w2) => (.err err, w2)
      | (none, w2) =>
        match os.Close w2.os f.fh with
        | (some err, o3) => (.err err, { w2 with os := o3 })
        | (none, o3) => (.ok (), { w2 with os := o3 })

end pyramid
/-! ## Auxiliary definitions for the statements -/

namespace path

/-- A plain path element: non-empty, without a slash, and neither `.` nor `..`. -/
def PlainElem (e : GoString) : Prop :=
  e ≠ [] ∧ '/' ∉ e ∧ e ≠ ['.'] ∧ e ≠ ['.', '.']

instance : DecidablePred PlainElem := fun e => by
  unfold PlainElem; infer_instance

/-- The output buffer after a real path element has been copied to it. -/
def pushElem (out e : List Char) : List Char :=
  (if out.length ≠ 0 then out ++ ['/'] else out) ++ e

end path

namespace pyramid

/-- A machine with an empty disk and no open file. -/
def emptyOS : OS := { disk := fun _ => none, files := [], now := 0 }

/-- The registry `NewSharedLocalStorage` returns for the base folder `/base`. -/
def baseStorage : SharedLocalStorage GoString :=
  { filesystems := fun _ => none, basepath := "/base".data }

/-- The machine after `NewSharedLocalStorage` of `/base` on the empty machine. -/
def baseOS : OS := (NewSharedLocalStorage GoString emptyOS "/base".data).2

/-- The file system `NewTierFS` builds for the name `n` in adapter
namespace `ns` under `/base`, when `n` is a plain element. -/
def tierFSAt (n : GoString) : ImmutableTierFS :=
  { refCount := fun _ => 0, lastAccess := fun _ => none, fsName := n,
    adapterNS := "ns".data, localBaseDir := "/base/".data ++ n,
    remotePrefix := "_lakeFS/".data ++ n }

/-- An adapter that is out of service: every call fails. -/
def downAdapter : Adapter Unit :=
  { Put := fun r _ _ _ => (some (.adapter 503), r)
    Get := fun _ _ _ => .error (.adapter 503) }

/-- Modelled from the spec: the remote store adapter (`block.Adapter` is not
among the sources), as an in-memory store. `put` uploads `sizeBytes` bytes
from the stream under the key, all or nothing; `get` returns the object
from `rangeStart`, or a not-found error when the key is absent. When
`strict`, a stream that ends before `sizeBytes` bytes is refused; otherwise
the bytes it delivered are stored. -/
def memAdapter (strict : Bool) : Adapter (ObjectPointer → Option Bytes) :=
  { Put := fun r key size s =>
      match s.err with
      | some e => (some e, r)
      | none =>
        if strict && decide (s.data.length < size.toNat) then (some (.adapter 400), r)
        else (none, fun k => if k = key then some (s.data.take size.toNat) else r k)
    Get := fun r key rangeStart =>
      match r key with
      | none => .error (.adapter 404)
      | some d => .ok ⟨d.drop rangeStart.toNat, none⟩ }

/-- The state of the in-memory store that holds the bytes `b` under the key
of the file `f` of the file system `a`, and nothing else. -/
def remoteWith (f : GoString) (b : Bytes) : ObjectPointer → Option Bytes :=
  fun k => if k = (tierFSAt "a".data).objPointer f then some b else none

/-- An adapter whose `get` delivers the stream held in its state, whatever
the key. -/
def streamAdapter : Adapter Stream :=
  { Put := fun r _ _ _ => (none, r)
    Get := fun r _ _ => .ok r }

/-- The world of the file system `a` right after `NewTierFS` under `/base`,
with adapter state `r`. -/
def worldAt {R : Type} (r : R) : World R :=
  { os := (NewTierFS baseStorage baseOS "a".data "ns".data).2.2, remote := r,
    tfs := tierFSAt "a".data }

/-- The world with the regular file `name` put on the disk out of band. -/
def World.withFile {R : Type} (w : World R) (name : GoString) (c : Bytes) : World R :=
  { w with os := { w.os with disk := setAt w.os.disk name (some (.file c)) } }

/-- The world with the directory `name` made on the disk out of band. -/
def World.withDir {R : Type} (w : World R) (name : GoString) : World R :=
  { w with os := { w.os with disk := setAt w.os.disk name (some .dir) } }

/-- The world of the file system `a` with a source file `/src/f` of two
bytes outside its directory, and the adapter out of service. -/
def sourceWorld : World Unit :=
  ((worldAt ()).withDir "/src".data).withFile "/src/f".data [1, 2]

/-- The handle of a successful call; a handle without hooks otherwise. -/
def handleOf {R : Type} (r : Result (File R)) : File R :=
  match r with
  | .ok h => h
  | _ => { fh := 0, access := none, release := none, close := none, size := 0 }

/-- The world of the file system `a` with a local copy of the file `f`
holding the byte 1, and the adapter out of service. -/
def hitWorld : World Unit := (worldAt ()).withFile "/base/a/f".data [1]

/-- `Create(f)` followed by one `Write` of `p` on the returned handle (the
handle without hooks when `Create` fails, whose `Write` panics): the result
of the write, the handle and the world afterwards. -/
def writeOnce {R : Type} (A : Adapter R) (f : GoString) (p : Bytes) (w : World R) :
    Result (Nat × Option GoError) × File R × World R :=
  (handleOf (Create A f w).1).Write p (Create A f w).2

/-- Go `io.ReadAll` over `File.Read` with a 512-byte buffer: the loop runs
until `io.EOF` or an error; `fuel` bounds the number of reads. -/
def ReadAllLoop {R : Type} (f : File R) : Nat → World R → Bytes → Result Bytes × World R
  | 0, w, _ => (.err (.message "out of fuel".data), w)
  | fuel + 1, w, acc =>
    match f.Read 512 w with
    | (.ok (d, none), w') => ReadAllLoop f fuel w' (acc ++ d)
    | (.ok (d, some .EOF), w') => (.ok (acc ++ d), w')
    | (.ok (_, some e), w') => (.err e, w')
    | (.err e, w') => (.err e, w')
    | (.panic, w') => (.panic, w')

/-- The second half of the round trip, from the world after the `Close`:
optionally the removal of the local copy with `os.Remove`, then `Open(f)`
and a read to the end of the file with `fuel` reads at most. -/
def readBack {R : Type} (A : Adapter R) (f : GoString) (evict : Bool) (fuel : Nat)
    (w3 : World R) : Result Bytes :=
  let w4 : World R :=
    if evict then
      match os.Remove w3.os (w3.tfs.localpath f) with
      | .ok o4 => { w3 with os := o4 }
      | .error _ => w3
    else w3
  match Open A f w4 with
  | (.err e, _) => .err e
  | (.panic, _) => .panic
  | (.ok r, w5) => (ReadAllLoop r fuel w5 []).1

/-- The round trip of the specification: `Create(f)`, one `Write` of `p`,
a `Close` that returns nil, optionally the removal of the local copy,
`Open(f)`, read to the end of the file. The result is what was read, or the
first failure. -/
def roundTrip {R : Type} (A : Adapter R) (f : GoString) (p : Bytes) (evict : Bool)
    (w : World R) : Result Bytes :=
  match (Create A f w).1 with
  | .err e => .err e
  | .panic => .panic
  | .ok _ =>
    match (writeOnce A f p w).1 with
    | .err e => .err e
    | .panic => .panic
    | .ok (_, some e) => .err e
    | .ok (_, none) =>
      match (writeOnce A f p w).2.1.Close (writeOnce A f p w).2.2 with
      | (.err e, _) => .err e
      | (.panic, _) => .panic
      | (.ok _, w3) => readBack A f evict (p.length + 2) w3

end pyramid

/-! ## Results on the local machine -/

namespace pyramid

theorem setAt_same {V : Type} (m : GoString → V) (k : GoString) (v : V) :
    setAt m k v k = v := by
  simp [setAt]

theorem setAt_setAt {V : Type} (m : GoString → V) (k : GoString) (v v' : V) :
    setAt (setAt m k v) k v' = setAt m k v' := by
  funext x
  by_cases h : x = k <;> simp [setAt, h]

theorem getElem?_length_append {α : Type} (l : List α) (a : α) (r : List α) :
    (l ++ a :: r)[l.length]? = some a := by
  rw [List.getElem?_append_right (le_refl _)]
  simp

theorem set_length_append {α : Type} (l : List α) (a a' : α) (r : List α) :
    (l ++ a :: r).set l.length a' = l ++ a' :: r := by
  rw [List.set_append_right _ _ (le_refl _)]
  simp

theorem entry_none {disk : GoString → Option Node} {p : GoString}
    (h : os.entry disk p = none) : os.alwaysDir p = false ∧ disk p = none := by
  unfold os.entry at h
  by_cases ha : os.alwaysDir p = true
  · simp [ha] at h
  · simp only [ha] at h
    exact ⟨by simpa using ha, by simpa using h⟩

theorem entry_file {disk : GoString → Option Node} {p : GoString} {c : Bytes}
    (h : os.entry disk p = some (.file c)) :
    os.alwaysDir p = false ∧ disk p = some (.file c) := by
  unfold os.entry at h
  by_cases ha : os.alwaysDir p = true
  · simp [ha] at h
  · simp only [ha] at h
    exact ⟨by simpa using ha, by simpa using h⟩

theorem entry_ne_dir {disk : GoString → Option Node} {p : GoString}
    (h : os.entry disk p ≠ some .dir) : os.alwaysDir p = false ∧ disk p ≠ some .dir := by
  unfold os.entry at h
  by_cases ha : os.alwaysDir p = true
  · simp [ha] at h
  · simp only [ha] at h
    exact ⟨by simpa using ha, by simpa using h⟩

theorem entry_setAt_same (disk : GoString → Option Node) (p : GoString) (v : Option Node)
    (ha : os.alwaysDir p = false) : os.entry (setAt disk p v) p = v := by
  simp [os.entry, ha, setAt_same]

/-- A change of the table at a path that is not a directory does not change
a resolution that succeeds. -/
theorem walk_setAt (disk : GoString → Option Node) (p : GoString) (v : Option Node)
    (hp : disk p ≠ some .dir) (l : List GoString) (h : os.walk disk l = .ok ()) :
    os.walk (setAt disk p v) l = .ok () := by
  induction l with
  | nil => rfl
  | cons d ds ih =>
    unfold os.walk at h ⊢
    cases hd : disk d with
    | none => simp [hd] at h
    | some nd =>
      cases nd with
      | file c => simp [hd] at h
      | dir =>
        simp only [hd] at h
        have hne : d ≠ p := fun e => hp (e ▸ hd)
        simp only [setAt, hne, if_false, hd]
        exact ih h

theorem parents_setAt (disk : GoString → Option Node) (p q : GoString) (v : Option Node)
    (hp : disk p ≠ some .dir) (h : os.parents disk q = .ok ()) :
    os.parents (setAt disk p v) q = .ok () := by
  unfold os.parents at h ⊢
  by_cases hq : q = []
  · simp [hq] at h
  · simp only [hq, if_false] at h ⊢
    exact walk_setAt disk p v hp _ h

theorem os_Open_present (o : OS) (lp : GoString) (nd : Node)
    (hdir : os.parents o.disk lp = .ok ()) (h : os.entry o.disk lp = some nd) :
    os.Open o lp = .ok (o.files.length,
      { o with files := o.files ++ [⟨lp, 0, false, false⟩] }) := by
  simp [os.Open, hdir, h]

theorem os_Open_missing (o : OS) (lp : GoString)
    (hdir : os.parents o.disk lp = .ok ()) (h : os.entry o.disk lp = none) :
    os.Open o lp = .error .ErrNotExist := by
  simp [os.Open, hdir, h]

theorem os_Create_free (o : OS) (lp : GoString)
    (hdir : os.parents o.disk lp = .ok ()) (h : os.entry o.disk lp ≠ some .dir) :
    os.Create o lp = .ok (o.files.length,
      { o with disk := setAt o.disk lp (some (.file [])),
               files := o.files ++ [⟨lp, 0, true, false⟩] }) := by
  unfold os.Create
  cases he : os.entry o.disk lp with
  | none => simp [hdir]
  | some nd =>
    cases nd with
    | file c => simp [hdir]
    | dir => exact absurd he h

theorem os_Create_missing (o : OS) (lp : GoString)
    (hdir : os.parents o.disk lp = .ok ()) (h : os.entry o.disk lp = none) :
    os.Create o lp = .ok (o.files.length,
      { o with disk := setAt o.disk lp (some (.file [])),
               files := o.files ++ [⟨lp, 0, true, false⟩] }) :=
  os_Create_free o lp hdir (by rw [h]; simp)

theorem os_Mkdir_ok {o o' : OS} {p : GoString} (h : os.Mkdir o p = .ok o') :
    o' = { o with disk := setAt o.disk p (some .dir) } ∧ os.alwaysDir p = false := by
  unfold os.Mkdir at h
  cases hpar : os.parents o.disk p with
  | error e => simp [hpar] at h
  | ok u =>
    simp only [hpar] at h
    cases he : os.entry o.disk p with
    | some nd => simp [he] at h
    | none =>
      simp only [he, Except.ok.injEq] at h
      exact ⟨h.symm, (entry_none he).1⟩

/-- The machine after `os.Create` of a path and `io.Copy` of the bytes `b`
into the new descriptor. -/
theorem os_Copy_fresh (o : OS) (lp : GoString) (b : Bytes) (err : Option GoError) :
    os.Copy { o with disk := setAt o.disk lp (some (.file [])),
                     files := o.files ++ [⟨lp, 0, true, false⟩] }
        o.files.length ⟨b, err⟩ =
      (err, { o with disk := setAt o.disk lp (some (.file b)),
                     files := o.files ++ [⟨lp, b.length, true, false⟩] }) := by
  cases b with
  | nil => simp [os.Copy]
  | cons x b =>
    simp [os.Copy, os.Write, os.content, os.setFile, setAt_same, setAt_setAt,
      getElem?_length_append, set_length_append]

theorem os_Close_at (d : GoString → Option Node) (t : Nat) (l r : List OsFile) (a : OsFile)
    (ha : a.closed = false) :
    os.Close { disk := d, files := l ++ a :: r, now := t } l.length =
      (none, { disk := d, files := l ++ { a with closed := true } :: r, now := t }) := by
  unfold os.Close
  simp only [getElem?_length_append, ha, os.setFile, set_length_append]
  simp

theorem os_ReadAt_at (d : GoString → Option Node) (t : Nat) (l r : List OsFile) (a : OsFile)
    (b : Bytes) (ha : a.closed = false) (hd : d a.name = some (.file b)) (n off : Nat) :
    os.ReadAt { disk := d, files := l ++ a :: r, now := t } l.length n off =
      ((b.drop off).take n, if ((b.drop off).take n).length < n then some .EOF else none) := by
  unfold os.ReadAt os.content
  simp only [getElem?_length_append, ha, hd]
  simp

theorem os_Read_at (d : GoString → Option Node) (t : Nat) (l r : List OsFile) (a : OsFile)
    (b : Bytes) (ha : a.closed = false) (hd : d a.name = some (.file b)) (n : Nat)
    (hn : 0 < n) (hb : a.offset < b.length) :
    (os.Read { disk := d, files := l ++ a :: r, now := t } l.length n).1 =
      ((b.drop a.offset).take n, none) := by
  unfold os.Read os.content
  simp only [getElem?_length_append, ha, hd]
  have h1 : ¬ n = 0 := by omega
  have h2 : ¬ b.length ≤ a.offset := by omega
  simp [h1, h2]

theorem os_reader_at (d : GoString → Option Node) (t : Nat) (l r : List OsFile) (a : OsFile)
    (b : Bytes) (ha : a.closed = false) (hd : d a.name = some (.file b)) :
    os.reader { disk := d, files := l ++ a :: r, now := t } l.length =
      ⟨b.drop a.offset, none⟩ := by
  unfold os.reader os.content
  simp only [getElem?_length_append, ha, hd]
  simp

end pyramid


/-! ## Results on `SplitFirst` -/

namespace strings

theorem Index_slash_nil : Index [] ['/'] = none := by
  simp [Index]

theorem Index_slash_cons (c : Char) (s : GoString) :
    Index (c :: s) ['/'] = if c = '/' then some 0 else (Index s ['/']).map (· + 1) := by
  by_cases h : c = '/'
  · subst h; simp [Index]
  · have h' : ¬ ('/' = c) := fun e => h e.symm
    simp [Index, h, h']

theorem Index_slash_none {s : GoString} : Index s ['/'] = none ↔ '/' ∉ s := by
  induction s with
  | nil => simp [Index_slash_nil]
  | cons c s ih =>
    rw [Index_slash_cons]
    by_cases h : c = '/'
    · subst h; simp
    · have h' : ¬ ('/' = c) := fun e => h e.symm
      simp [h, h', ih]

theorem Index_slash_some {s : GoString} {m : Nat} (h : Index s ['/'] = some m) :
    '/' ∉ s.take m ∧ s = s.take m ++ '/' :: s.drop (m + 1) ∧
      s.count '/' = 1 + (s.drop (m + 1)).count '/' := by
  induction s generalizing m with
  | nil => simp [Index_slash_nil] at h
  | cons c s ih =>
    rw [Index_slash_cons] at h
    by_cases hc : c = '/'
    · subst hc
      simp at h
      subst h
      simp
      omega
    · have hc' : ¬ ('/' = c) := fun e => hc e.symm
      simp only [hc, if_false, Option.map_eq_some'] at h
      obtain ⟨m', hm', rfl⟩ := h
      obtain ⟨h1, h2, h3⟩ := ih hm'
      refine ⟨?_, ?_, ?_⟩
      · simp [List.take_succ_cons, hc', h1]
      · simp only [List.take_succ_cons, List.drop_succ_cons, List.cons_append]
        rw [← h2]
      · simp only [List.drop_succ_cons]
        rw [List.count_cons_of_ne hc', h3]

end strings

namespace strings

theorem genSplitLoop_length (k : Nat) (s : GoString) :
    (genSplitLoop ['/'] k s).length = min k (s.count '/') + 1 := by
  induction k generalizing s with
  | zero => simp [genSplitLoop]
  | succ k ih =>
    unfold genSplitLoop
    cases h : Index s ['/'] with
    | none =>
      have : s.count '/' = 0 := List.count_eq_zero.mpr (Index_slash_none.mp h)
      simp [this]
    | some m =>
      obtain ⟨_, _, h3⟩ := Index_slash_some h
      simp only [List.length_cons, List.length_singleton, List.length_nil, Nat.zero_add, ih, h3]
      omega

theorem genSplitLoop_join (k : Nat) (s : GoString) :
    Join (genSplitLoop ['/'] k s) ['/'] = s := by
  induction k generalizing s with
  | zero => simp [genSplitLoop, Join, List.intercalate]
  | succ k ih =>
    unfold genSplitLoop
    cases h : Index s ['/'] with
    | none => simp [Join, List.intercalate]
    | some m =>
      obtain ⟨_, h2, _⟩ := Index_slash_some h
      have hne : genSplitLoop ['/'] k (s.drop (m + 1)) ≠ [] := by
        intro e
        have := genSplitLoop_length k (s.drop (m + 1))
        rw [e] at this
        simp at this
      have ih' := ih (s.drop (m + 1))
      simp only [List.length_singleton]
      obtain ⟨x, xs, hx⟩ := List.exists_cons_of_ne_nil hne
      rw [hx] at ih' ⊢
      simp only [Join, List.intercalate, List.intersperse, List.flatten] at ih' ⊢
      rw [ih']
      simpa using h2.symm

theorem genSplitLoop_noSep (k : Nat) (s : GoString) :
    ∀ x ∈ (genSplitLoop ['/'] k s).take k, '/' ∉ x := by
  induction k generalizing s with
  | zero => simp
  | succ k ih =>
    unfold genSplitLoop
    cases h : Index s ['/'] with
    | none =>
      intro x hx
      simp at hx
      subst hx
      exact Index_slash_none.mp h
    | some m =>
      obtain ⟨h1, _, _⟩ := Index_slash_some h
      intro x hx
      simp only [List.length_singleton, List.take_succ_cons, List.mem_cons] at hx
      rcases hx with rfl | hx
      · exact h1
      · exact ih _ x hx

end strings

namespace gateway

theorem TrimPrefix_slash (pth : GoString) :
    strings.TrimPrefix pth Separator = if pth.head? = some '/' then pth.tail else pth := by
  cases pth with
  | nil => simp [strings.TrimPrefix, strings.HasPrefix, Separator]
  | cons c s =>
    by_cases h : c = '/'
    · subst h; simp [strings.TrimPrefix, strings.HasPrefix, Separator]
    · have h' : ¬ ('/' = c) := fun e => h e.symm
      simp [strings.TrimPrefix, strings.HasPrefix, Separator, h, h']

theorem SplitN_pos (t : GoString) (k : Nat) :
    strings.SplitN t Separator ((k : Int) + 1) = strings.genSplitLoop ['/'] k t := by
  have h1 : ¬ ((k : Int) + 1 = 0) := by omega
  have h2 : ¬ ((k : Int) + 1 < 0) := by omega
  have h3 : ((k : Int) + 1).toNat - 1 = k := by omega
  simp only [strings.SplitN, h1, h2, if_false, h3, Separator]

theorem SplitFirst_eq (pth : GoString) (k : Nat) :
    SplitFirst pth ((k : Int) + 1) =
      (let t := if pth.head? = some '/' then pth.tail else pth
       if t.count '/' < k ∨ (k = 0 ∧ t = []) then ([], false)
       else (strings.genSplitLoop ['/'] k t, true)) := by
  simp only [SplitFirst, TrimPrefix_slash, SplitN_pos]
  generalize (if pth.head? = some '/' then pth.tail else pth) = t
  have hlen := strings.genSplitLoop_length k t
  by_cases h1 : t.count '/' < k
  · have : ((strings.genSplitLoop ['/'] k t).length : Int) < (k : Int) + 1 := by
      rw [hlen]; omega
    simp [this, h1]
  · have hn : ¬ ((strings.genSplitLoop ['/'] k t).length : Int) < (k : Int) + 1 := by
      rw [hlen]; omega
    simp only [hn, if_false, h1, false_or]
    by_cases h2 : k = 0
    · subst h2
      cases t with
      | nil => simp [strings.genSplitLoop]
      | cons c s => simp [strings.genSplitLoop]
    · have hl : ¬ (strings.genSplitLoop ['/'] k t).length = 1 := by
        rw [hlen]; omega
      simp [hl, h2]

theorem SplitFirst_two_components (pth : GoString)
    (h : (if pth.head? = some '/' then pth.tail else pth).count '/' = 1) :
    (SplitFirst pth 3).2 = false ∧ (SplitFirst pth 2).2 = true := by
  have h3 : SplitFirst pth 3 = SplitFirst pth (((2 : Nat) : Int) + 1) := rfl
  have h2 : SplitFirst pth 2 = SplitFirst pth (((1 : Nat) : Int) + 1) := rfl
  rw [h3, h2]
  simp only [SplitFirst_eq, h]
  exact ⟨by simp, by simp⟩

/-- C10: for `parts ≥ 1` and `t` the path without one leading slash,
`SplitFirst` fails (with the empty list) exactly when `t` has fewer than
`parts - 1` separators or `parts = 1` and `t` is empty; otherwise it returns
exactly `parts` elements, the first `parts - 1` without a separator, whose
join with the separator is `t`. A path with two components fails for 3
parts, succeeds for 2, and `servePathBased` answers it with
`NotFoundHandler`. -/
theorem SplitFirst_characterisation (pth : GoString) (parts : Int) (hparts : 1 ≤ parts) :
    ((SplitFirst pth parts).2 = false ↔
        ((((if pth.head? = some '/' then pth.tail else pth).count '/' : Nat) : Int) < parts - 1 ∨
          (parts = 1 ∧ (if pth.head? = some '/' then pth.tail else pth) = []))) ∧
    ((SplitFirst pth parts).2 = false → (SplitFirst pth parts).1 = []) ∧
    ((SplitFirst pth parts).2 = true →
        ((SplitFirst pth parts).1.length : Int) = parts ∧
        (∀ x ∈ (SplitFirst pth parts).1.take (parts.toNat - 1), '/' ∉ x) ∧
        strings.Join (SplitFirst pth parts).1 Separator =
          (if pth.head? = some '/' then pth.tail else pth)) ∧
    ((if pth.head? = some '/' then pth.tail else pth).count '/' = 1 →
        (SplitFirst pth 3).2 = false ∧ (SplitFirst pth 2).2 = true ∧
        ∀ (env : Env) (BareDomain : GoString) (r : Request), r.Path = pth →
          env.EqualFold (hostOnly env r.Host) (hostOnly env BareDomain) = true →
          servePathBased env BareDomain r = Route.NotFoundHandler) := by
  obtain ⟨k, rfl⟩ : ∃ k : Nat, parts = (k : Int) + 1 := ⟨(parts - 1).toNat, by omega⟩
  have hk : ((k : Int) + 1).toNat - 1 = k := by omega
  have h4 : (if pth.head? = some '/' then pth.tail else pth).count '/' = 1 →
      (SplitFirst pth 3).2 = false ∧ (SplitFirst pth 2).2 = true ∧
      ∀ (env : Env) (BareDomain : GoString) (r : Request), r.Path = pth →
        env.EqualFold (hostOnly env r.Host) (hostOnly env BareDomain) = true →
        servePathBased env BareDomain r = Route.NotFoundHandler := by
    intro hcount
    obtain ⟨a, b⟩ := SplitFirst_two_components pth hcount
    refine ⟨a, b, ?_⟩
    intro env bd r hr he
    subst hr
    simp [servePathBased, he, a, b]
  refine ⟨?_, ?_, ?_, h4⟩ <;> clear h4 <;> (try rw [hk]) <;> simp only [SplitFirst_eq] <;>
    generalize (if pth.head? = some '/' then pth.tail else pth) = t <;>
    have hlen := strings.genSplitLoop_length k t
  · by_cases hc : t.count '/' < k ∨ (k = 0 ∧ t = [])
    · simp only [hc, if_true, true_iff]
      rcases hc with hc | ⟨hc, ht⟩
      · left; omega
      · right; exact ⟨by omega, ht⟩
    · simp only [hc, if_false, Bool.true_eq_false, false_iff]
      intro h
      apply hc
      rcases h with h | ⟨h, ht⟩
      · left; omega
      · right; exact ⟨by omega, ht⟩
  · by_cases hc : t.count '/' < k ∨ (k = 0 ∧ t = [])
    · simp [hc]
    · simp [hc]
  · by_cases hc : t.count '/' < k ∨ (k = 0 ∧ t = [])
    · simp [hc]
    · simp only [hc, if_false, true_implies]
      refine ⟨?_, strings.genSplitLoop_noSep k t, strings.genSplitLoop_join k t⟩
      rw [hlen]
      have : ¬ t.count '/' < k := fun h => hc (Or.inl h)
      omega

/-- C10 at the path `/repo/ref` split in three. -/
theorem SplitFirst_characterisation_witness :
    (SplitFirst "/repo/ref".data 3).2 = false ∧ (SplitFirst "/repo/ref".data 3).1 = [] :=
  have h := SplitFirst_characterisation "/repo/ref".data 3 (by decide)
  ⟨h.1.mpr (Or.inl (by decide)), h.2.1 (h.1.mpr (Or.inl (by decide)))⟩

end gateway

/-! ## Results on `path.Clean` and the object keys -/

namespace path

theorem takeWhile_noSlash (e r : List Char) (he : '/' ∉ e)
    (hr : r = [] ∨ r.head? = some '/') :
    (e ++ r).takeWhile (· ≠ '/') = e ∧ (e ++ r).dropWhile (· ≠ '/') = r := by
  induction e with
  | nil =>
    rcases hr with rfl | hr
    · simp
    · cases r with
      | nil => simp at hr
      | cons c r => simp at hr; subst hr; simp
  | cons c e ih =>
    have hc : c ≠ '/' := fun h => he (by simp [h])
    have he' : '/' ∉ e := fun h => he (by simp [h])
    have ih' := ih he'
    simp only [ne_eq, decide_not] at ih' ⊢
    simp [List.takeWhile_cons, List.dropWhile_cons, hc, ih'.1, ih'.2]

theorem cleanLoop_elem (k : Nat) (e r out : List Char) (he : PlainElem e)
    (hr : r = [] ∨ r.head? = some '/') :
    cleanLoop false (k + 1) (e ++ r) out 0 = cleanLoop false k r (pushElem out e) 0 := by
  obtain ⟨hne, hns, hd, hdd⟩ := he
  cases e with
  | nil => exact absurd rfl hne
  | cons c e' =>
    have hc : c ≠ '/' := fun h => hns (by simp [h])
    have he' : '/' ∉ e' := fun h => hns (by simp [h])
    have c2 : ¬ (c = '.' ∧ (e' ++ r = [] ∨ (e' ++ r).head? = some '/')) := by
      rintro ⟨rfl, h⟩
      cases e' with
      | nil => exact hd rfl
      | cons d e'' =>
        rcases h with h | h
        · simp at h
        · simp at h; subst h; simp at he'
    have c3 : ¬ (c = '.' ∧ (e' ++ r).head? = some '.' ∧
        ((e' ++ r).tail = [] ∨ (e' ++ r).tail.head? = some '/')) := by
      rintro ⟨rfl, h1, h2⟩
      cases e' with
      | nil =>
        rcases hr with rfl | hr
        · simp at h1
        · simp at h1; rw [h1] at hr; simp at hr
      | cons d e'' =>
        simp at h1; subst h1
        cases e'' with
        | nil => exact hdd rfl
        | cons x e3 =>
          rcases h2 with h2 | h2
          · simp at h2
          · simp at h2; subst h2; simp at he'
    obtain ⟨h1, h2⟩ := takeWhile_noSlash (c :: e') r hns hr
    have key : cleanLoop false (k + 1) (c :: (e' ++ r)) out 0 =
        cleanLoop false k ((c :: (e' ++ r)).dropWhile (· ≠ '/'))
          ((if (false = true ∧ out.length ≠ 1) ∨ ((!false) = true ∧ out.length ≠ 0)
              then out ++ ['/'] else out) ++ (c :: (e' ++ r)).takeWhile (· ≠ '/')) 0 := by
      rw [cleanLoop]
      simp only [hc, c2, c3, if_false]
    rw [List.cons_append, key, ← List.cons_append, h1, h2]
    simp [pushElem]

theorem cleanLoop_nil (rooted : Bool) (k : Nat) (out : List Char) (dotdot : Nat) :
    cleanLoop rooted k [] out dotdot = out := by
  cases k <;> simp [cleanLoop]

theorem cleanLoop_slash (k : Nat) (rest out : List Char) (dotdot : Nat) :
    cleanLoop false (k + 1) ('/' :: rest) out dotdot = cleanLoop false k rest out dotdot := by
  rw [cleanLoop]; simp

theorem joinSlash_cons_cons (a b : GoString) (l : List GoString) :
    strings.Join (a :: b :: l) ['/'] = a ++ '/' :: strings.Join (b :: l) ['/'] := by
  simp [strings.Join, List.intercalate, List.intersperse]

theorem joinSlash_single (a : GoString) : strings.Join [a] ['/'] = a := by
  simp [strings.Join, List.intercalate, List.intersperse]

theorem joinSlash_append (xs ys : List GoString) (hx : xs ≠ []) (hy : ys ≠ []) :
    strings.Join (xs ++ ys) ['/'] = strings.Join xs ['/'] ++ '/' :: strings.Join ys ['/'] := by
  induction xs with
  | nil => exact absurd rfl hx
  | cons a xs ih =>
    cases xs with
    | nil =>
      obtain ⟨b, ys', rfl⟩ := List.exists_cons_of_ne_nil hy
      simp [joinSlash_cons_cons, joinSlash_single]
    | cons a2 xs =>
      have := ih (by simp)
      simp only [List.cons_append] at this ⊢
      rw [joinSlash_cons_cons, this, joinSlash_cons_cons]
      simp

theorem pushElem_ne_nil (out e : List Char) (he : e ≠ []) : pushElem out e ≠ [] := by
  simp [pushElem, he]

theorem cleanLoop_plain (es : List GoString) (hes : ∀ e ∈ es, PlainElem e) (hne : es ≠ []) :
    ∀ (k : Nat) (out : List Char), (strings.Join es ['/']).length ≤ k →
      cleanLoop false k (strings.Join es ['/']) out 0 = pushElem out (strings.Join es ['/']) := by
  induction es with
  | nil => exact absurd rfl hne
  | cons e es ih =>
    have he : PlainElem e := hes e (by simp)
    have hlen : 1 ≤ e.length := by
      have := he.1
      cases e with
      | nil => exact absurd rfl this
      | cons _ _ => simp
    intro k out hk
    cases es with
    | nil =>
      rw [joinSlash_single] at hk ⊢
      obtain ⟨k', rfl⟩ : ∃ k', k = k' + 1 := ⟨k - 1, by omega⟩
      have := cleanLoop_elem k' e [] out he (Or.inl rfl)
      rw [List.append_nil] at this
      rw [this, cleanLoop_nil]
    | cons e2 es =>
      rw [joinSlash_cons_cons] at hk ⊢
      simp only [List.length_append, List.length_cons] at hk
      obtain ⟨k', rfl⟩ : ∃ k', k = k' + 2 := ⟨k - 2, by omega⟩
      rw [cleanLoop_elem (k' + 1) e ('/' :: strings.Join (e2 :: es) ['/']) out he (Or.inr rfl),
        cleanLoop_slash]
      rw [ih (fun x hx => hes x (by simp [hx])) (by simp) k' _ (by omega)]
      have hp := pushElem_ne_nil out e he.1
      have hp' : (pushElem out e).length ≠ 0 := by
        intro h; exact hp (List.length_eq_zero.mp h)
      generalize strings.Join (e2 :: es) ['/'] = rest
      unfold pushElem at hp' ⊢
      simp only [hp', ne_eq, not_false_eq_true, if_true]
      simp

theorem joinSlash_head (es : List GoString) (hes : ∀ e ∈ es, PlainElem e) (hne : es ≠ []) :
    strings.Join es ['/'] ≠ [] ∧ (strings.Join es ['/']).head? ≠ some '/' := by
  obtain ⟨e, es', rfl⟩ := List.exists_cons_of_ne_nil hne
  obtain ⟨h1, h2, _, _⟩ := hes e (by simp)
  obtain ⟨c, e', rfl⟩ := List.exists_cons_of_ne_nil h1
  have hc : c ≠ '/' := fun h => h2 (by simp [h])
  cases es' with
  | nil => rw [joinSlash_single]; simp [hc]
  | cons e2 es => rw [joinSlash_cons_cons]; simp [hc]

/-- `path.Clean` leaves a slash-separated sequence of plain elements as it is. -/
theorem Clean_plain (es : List GoString) (hes : ∀ e ∈ es, PlainElem e) (hne : es ≠ []) :
    Clean (strings.Join es ['/']) = strings.Join es ['/'] := by
  obtain ⟨h1, h2⟩ := joinSlash_head es hes hne
  unfold Clean
  simp only [h1, h2, if_false]
  rw [cleanLoop_plain es hes hne _ _ (le_refl _)]
  simp [pushElem, h1]

/-- `path.Join` of two slash-separated sequences of plain elements. -/
theorem Join_plain (xs ys : List GoString) (hxs : ∀ e ∈ xs, PlainElem e) (hx : xs ≠ [])
    (hys : ∀ e ∈ ys, PlainElem e) (hy : ys ≠ []) :
    Join (strings.Join xs ['/']) (strings.Join ys ['/']) = strings.Join (xs ++ ys) ['/'] := by
  obtain ⟨h1, _⟩ := joinSlash_head xs hxs hx
  unfold Join
  simp only [h1, ne_eq, not_false_eq_true, if_true]
  have e1 : strings.Join [strings.Join xs ['/'], strings.Join ys ['/']] ['/'] =
      strings.Join (xs ++ ys) ['/'] := by
    rw [joinSlash_append xs ys hx hy, joinSlash_cons_cons, joinSlash_single]
  rw [e1]
  exact Clean_plain (xs ++ ys)
    (fun e he => by
      rcases List.mem_append.mp he with h | h
      · exact hxs e h
      · exact hys e h)
    (by simp [hx])

end path

namespace pyramid

theorem NewTierFS_ok {sls : SharedLocalStorage GoString} {o : OS} {n ns : GoString}
    {tfs : ImmutableTierFS} (h : (NewTierFS sls o n ns).1 = .ok tfs) :
    tfs.fsName = n ∧ tfs.adapterNS = ns ∧
      tfs.remotePrefix = path.Join fsBlockStoragePrefix n ∧
      tfs.localBaseDir = path.Join sls.basepath n ∧
      tfs.refCount = (fun _ => 0) ∧ tfs.lastAccess = (fun _ => none) := by
  unfold NewTierFS SharedLocalStorage.Register at h
  cases hf : sls.filesystems n with
  | some v => simp [hf] at h
  | none =>
    simp only [hf] at h
    cases hm : os.Mkdir o (path.Join sls.basepath n) with
    | error e => simp [hm] at h
    | ok o' =>
      simp only [hm, Result.ok.injEq] at h
      subst h
      simp

theorem plain_fsBlockStoragePrefix : path.PlainElem fsBlockStoragePrefix := by
  decide

theorem blockStoragePath_plain (tfs : ImmutableTierFS) (n : GoString) (fs : List GoString)
    (hp : tfs.remotePrefix = path.Join fsBlockStoragePrefix n) (hn : path.PlainElem n)
    (hfs : ∀ e ∈ fs, path.PlainElem e) (hne : fs ≠ []) :
    tfs.blockStoragePath (strings.Join fs ['/']) =
      fsBlockStoragePrefix ++ ['/'] ++ n ++ ['/'] ++ strings.Join fs ['/'] := by
  have h1 : path.Join fsBlockStoragePrefix n = strings.Join [fsBlockStoragePrefix, n] ['/'] := by
    have := path.Join_plain [fsBlockStoragePrefix] [n]
      (by simpa using plain_fsBlockStoragePrefix) (by simp) (by simpa using hn) (by simp)
    simpa [path.joinSlash_single] using this
  have h2 := path.Join_plain [fsBlockStoragePrefix, n] fs
    (by
      intro e he
      simp only [List.mem_cons, List.mem_singleton, List.not_mem_nil, or_false] at he
      rcases he with rfl | rfl
      · exact plain_fsBlockStoragePrefix
      · exact hn)
    (by simp) hfs hne
  unfold ImmutableTierFS.blockStoragePath
  rw [hp, h1, h2]
  obtain ⟨f, fs', rfl⟩ := List.exists_cons_of_ne_nil hne
  simp [path.joinSlash_cons_cons]

theorem noSlash_split (n1 n2 f1 f2 : List Char) (h1 : '/' ∉ n1) (h2 : '/' ∉ n2)
    (h : n1 ++ '/' :: f1 = n2 ++ '/' :: f2) : n1 = n2 := by
  induction n1 generalizing n2 with
  | nil =>
    cases n2 with
    | nil => rfl
    | cons c n2 =>
      simp only [List.nil_append, List.cons_append, List.cons.injEq] at h
      exact absurd (by rw [← h.1]; simp) h2
  | cons c n1 ih =>
    cases n2 with
    | nil =>
      simp only [List.nil_append, List.cons_append, List.cons.injEq] at h
      exact absurd (by rw [h.1]; simp) h1
    | cons d n2 =>
      simp only [List.cons_append, List.cons.injEq] at h
      obtain ⟨hcd, h⟩ := h
      rw [hcd, ih n2 (fun hh => h1 (by simp [hh])) (fun hh => h2 (by simp [hh])) h]

theorem key_namespace_injective (p n1 n2 f1 f2 : List Char)
    (h1 : '/' ∉ n1) (h2 : '/' ∉ n2)
    (h : p ++ ['/'] ++ n1 ++ ['/'] ++ f1 = p ++ ['/'] ++ n2 ++ ['/'] ++ f2) : n1 = n2 := by
  have h' : p ++ '/' :: (n1 ++ '/' :: f1) = p ++ '/' :: (n2 ++ '/' :: f2) := by
    simpa using h
  have h'' := List.append_cancel_left h'
  simp only [List.cons.injEq, true_and] at h''
  exact noSlash_split n1 n2 f1 f2 h1 h2 h''

/-- C9 (as stated) fails: in one registry the namespaces `a` and `b` are
built by `NewTierFS`; the key of `../b/x` in `a` is the key of `x` in `b`,
and it is not `_lakeFS/a/../b/x`. -/
theorem objPointer_disjoint_counterexample :
    (NewTierFS baseStorage baseOS "a".data "ns".data).1 = .ok (tierFSAt "a".data) ∧
    (NewTierFS (NewTierFS baseStorage baseOS "a".data "ns".data).2.1
        (NewTierFS baseStorage baseOS "a".data "ns".data).2.2 "b".data "ns".data).1
      = .ok (tierFSAt "b".data) ∧
    "a".data ≠ "b".data ∧
    ((tierFSAt "a".data).objPointer "../b/x".data).Identifier =
      ((tierFSAt "b".data).objPointer "x".data).Identifier ∧
    ((tierFSAt "a".data).objPointer "../b/x".data).Identifier ≠
      fsBlockStoragePrefix ++ "/".data ++ "a".data ++ "/".data ++ "../b/x".data := by
  refine ⟨rfl, rfl, by decide, by decide, by decide⟩

/-- C9 (amended): for a namespace built by `NewTierFS` whose name `n` is a
plain path element (non-empty, no slash, not `.` or `..`) and a filename
that is a slash-separated sequence of plain elements, the identifier of the
object key is `_lakeFS` + `/` + `n` + `/` + filename; two such namespaces
with different names never share an identifier. -/
theorem objPointer_identifier_plain
    (sls1 sls2 : SharedLocalStorage GoString) (o1 o2 : OS) (n1 n2 ns1 ns2 : GoString)
    (tfs1 tfs2 : ImmutableTierFS) (fs1 fs2 : List GoString)
    (hnew1 : (NewTierFS sls1 o1 n1 ns1).1 = .ok tfs1)
    (hnew2 : (NewTierFS sls2 o2 n2 ns2).1 = .ok tfs2)
    (hn1 : path.PlainElem n1) (hn2 : path.PlainElem n2)
    (hfs1 : fs1 ≠ [] ∧ ∀ e ∈ fs1, path.PlainElem e)
    (hfs2 : fs2 ≠ [] ∧ ∀ e ∈ fs2, path.PlainElem e) :
    (tfs1.objPointer (strings.Join fs1 ['/'])).Identifier =
        fsBlockStoragePrefix ++ ['/'] ++ n1 ++ ['/'] ++ strings.Join fs1 ['/'] ∧
    (tfs1.objPointer (strings.Join fs1 ['/'])).StorageNamespace = ns1 ∧
    (n1 ≠ n2 →
      (tfs1.objPointer (strings.Join fs1 ['/'])).Identifier ≠
        (tfs2.objPointer (strings.Join fs2 ['/'])).Identifier) := by
  obtain ⟨_, ha1, hp1, _⟩ := NewTierFS_ok hnew1
  obtain ⟨_, _, hp2, _⟩ := NewTierFS_ok hnew2
  have e1 := blockStoragePath_plain tfs1 n1 fs1 hp1 hn1 hfs1.2 hfs1.1
  have e2 := blockStoragePath_plain tfs2 n2 fs2 hp2 hn2 hfs2.2 hfs2.1
  refine ⟨e1, ha1, ?_⟩
  intro hne heq
  simp only [ImmutableTierFS.objPointer] at heq
  rw [e1, e2] at heq
  exact hne (key_namespace_injective _ n1 n2 _ _ hn1.2.1 hn2.2.1 heq)

/-- C9 (amended) at the namespaces `a` and `b` and the filename `x`. -/
theorem objPointer_identifier_plain_witness :
    ((tierFSAt "a".data).objPointer "x".data).Identifier = "_lakeFS/a/x".data ∧
    ((tierFSAt "a".data).objPointer "x".data).Identifier ≠
      ((tierFSAt "b".data).objPointer "x".data).Identifier :=
  have h := objPointer_identifier_plain baseStorage baseStorage baseOS baseOS
    "a".data "b".data "ns".data "ns".data (tierFSAt "a".data) (tierFSAt "b".data)
    ["x".data] ["x".data] rfl rfl (by decide) (by decide)
    ⟨by decide, by decide⟩ ⟨by decide, by decide⟩
  ⟨h.1, h.2.2 (by decide)⟩

end pyramid

/-! ## Results on `pyramid/shared.go` -/

namespace pyramid

/-- C4: when `Register(n, fs1)` succeeds, a following `Register(n, fs2)`
returns an error and the registry (with `n` mapped to `fs1`), its base path
and the machine, with the directory of `n`, are exactly as the first call
left them. -/
theorem Register_duplicate {F : Type} (sd : SharedLocalStorage F) (o : OS)
    (n : GoString) (fs1 fs2 : F) (d : GoString)
    (hfirst : (sd.Register o n fs1).1 = .ok d) :
    (sd.Register o n fs1).2.1.filesystems n = some fs1 ∧
    (sd.Register o n fs1).2.1.basepath = sd.basepath ∧
    d = path.Join sd.basepath n ∧
    (sd.Register o n fs1).2.2.disk d = some Node.dir ∧
    (∃ e, ((sd.Register o n fs1).2.1.Register (sd.Register o n fs1).2.2 n fs2).1 = .error e) ∧
    ((sd.Register o n fs1).2.1.Register (sd.Register o n fs1).2.2 n fs2).2 =
      (sd.Register o n fs1).2 := by
  unfold SharedLocalStorage.Register at hfirst
  cases hf : sd.filesystems n with
  | some v => simp [hf] at hfirst
  | none =>
    simp only [hf] at hfirst
    cases hm : os.Mkdir o (path.Join sd.basepath n) with
    | error e => simp [hm] at hfirst
    | ok o' =>
      simp only [hm, Except.ok.injEq] at hfirst
      subst hfirst
      obtain ⟨ho', _⟩ := os_Mkdir_ok hm
      have e1 : sd.Register o n fs1 =
          (.ok (path.Join sd.basepath n),
            { sd with filesystems := setAt sd.filesystems n (some fs1) },
            { o with disk := setAt o.disk (path.Join sd.basepath n) (some .dir) }) := by
        simp [SharedLocalStorage.Register, hf, hm, ho']
      rw [e1]
      refine ⟨by simp [setAt], rfl, rfl, by simp [setAt], ?_, ?_⟩
      · exact ⟨_, by simp [SharedLocalStorage.Register, setAt]; rfl⟩
      · simp [SharedLocalStorage.Register, setAt]

/-- C4 at the registry of `/base` and the name `a`. -/
theorem Register_duplicate_witness :
    ∃ e, ((baseStorage.Register baseOS "a".data "one".data).2.1.Register
      (baseStorage.Register baseOS "a".data "one".data).2.2 "a".data "two".data).1 = .error e :=
  (Register_duplicate baseStorage baseOS "a".data "one".data "two".data "/base/a".data rfl).2.2.2.2.1

end pyramid

namespace pyramid

theorem Store_refCount {R : Type} (A : Adapter R) (s f : GoString) (w : World R) :
    (Store A s f w).2.tfs = w.tfs := by
  unfold Store
  split
  · rfl
  · split
    · rfl
    · split
      · rfl
      · split
        · rfl
        · split <;> rfl

/-- C8: when the adapter's put fails during `Store(s, f)` (the source path
`s` resolves to a regular file, which `Store` opens and hands to `Put`),
`Store` returns
an error, the disk is as before (the file at `s` keeps its content, nothing
is created or changed at `localpath(f)`), and `refCount` and `lastAccess`
are unchanged; on every outcome of `Store` the `refCount` map is unchanged. -/
theorem Store_put_failure {R : Type} (A : Adapter R) (s f : GoString) (w : World R)
    (c : Bytes) (e : GoError)
    (hdir : os.parents w.os.disk s = .ok ())
    (hsrc : os.entry w.os.disk s = some (.file c))
    (hput : (A.Put w.remote (w.tfs.objPointer f) c.length ⟨c, none⟩).1 = some e) :
    (Store A s f w).1 = .err (.wrap "adapter put".data e) ∧
    (Store A s f w).2.os.disk = w.os.disk ∧
    os.entry (Store A s f w).2.os.disk s = some (.file c) ∧
    (Store A s f w).2.os.disk (w.tfs.localpath f) = w.os.disk (w.tfs.localpath f) ∧
    (Store A s f w).2.tfs.refCount = w.tfs.refCount ∧
    (Store A s f w).2.tfs.lastAccess = w.tfs.lastAccess ∧
    (∀ (s' f' : GoString) (w' : World R),
      (Store A s' f' w').2.tfs.refCount = w'.tfs.refCount) := by
  have hopen : os.Open w.os s = .ok (w.os.files.length,
      { w.os with files := w.os.files ++ [⟨s, 0, false, false⟩] }) :=
    os_Open_present _ _ _ hdir hsrc
  have hraw := (entry_file hsrc).2
  have hstat : os.StatSize { w.os with files := w.os.files ++ [⟨s, 0, false, false⟩] }
      w.os.files.length = .ok (c.length : Int) := by
    simp [os.StatSize, hraw]
  have hreader : os.reader { w.os with files := w.os.files ++ [⟨s, 0, false, false⟩] }
      w.os.files.length = ⟨c, none⟩ := by
    simp [os.reader, os.content, hraw]
  have hstore : Store A s f w = (.err (.wrap "adapter put".data e),
      { w with os := { w.os with files := w.os.files ++ [⟨s, 0, false, false⟩] },
               remote := (A.Put w.remote (w.tfs.objPointer f) c.length ⟨c, none⟩).2 }) := by
    unfold Store
    simp only [hopen, hstat, hreader]
    cases hp : A.Put w.remote (w.tfs.objPointer f) (c.length : Int) ⟨c, none⟩ with
    | mk e' r1 =>
      rw [hp] at hput
      simp only at hput
      subst hput
      rfl
  refine ⟨by rw [hstore], by rw [hstore], by rw [hstore]; exact hsrc, by rw [hstore], ?_, ?_, ?_⟩
  · rw [Store_refCount]
  · rw [Store_refCount]
  · intro s' f' w'
    rw [Store_refCount]

/-- C8 at a source file `/src/f` of two bytes with the adapter out of service. -/
theorem Store_put_failure_witness :
    (Store downAdapter "/src/f".data "f".data sourceWorld).1 =
      .err (.wrap "adapter put".data (.adapter 503)) ∧
    os.entry (Store downAdapter "/src/f".data "f".data sourceWorld).2.os.disk "/src/f".data =
      some (.file [1, 2]) :=
  have h := Store_put_failure downAdapter "/src/f".data "f".data sourceWorld [1, 2]
    (.adapter 503) rfl rfl rfl
  ⟨h.1, h.2.2.1⟩

end pyramid

namespace pyramid

/-- A download that runs to the end: the local copy holds the bytes of the
stream, the writer is closed and a fresh reader is returned. -/
theorem readFromBlockStorage_ok {R : Type} (A : Adapter R) (f : GoString) (w : World R)
    (b : Bytes) (hdir : os.parents w.os.disk (w.tfs.localpath f) = .ok ())
    (hmiss : os.entry w.os.disk (w.tfs.localpath f) = none)
    (hget : A.Get w.remote (w.tfs.objPointer f) 0 = .ok ⟨b, none⟩) :
    readFromBlockStorage A f w = (.ok (w.os.files.length + 1),
      { w with os := { w.os with
          disk := setAt w.os.disk (w.tfs.localpath f) (some (.file b)),
          files := w.os.files ++ [⟨w.tfs.localpath f, b.length, true, true⟩,
            ⟨w.tfs.localpath f, 0, false, false⟩] } }) := by
  unfold readFromBlockStorage
  obtain ⟨hnd, hraw⟩ := entry_none hmiss
  simp only [hget, os_Create_missing _ _ hdir hmiss, os_Copy_fresh]
  rw [os_Open_present _ _ (.file b)
    (parents_setAt _ _ _ _ (by rw [hraw]; simp) hdir) (entry_setAt_same _ _ _ hnd)]
  simp only [List.append_assoc, List.singleton_append]
  rw [os_Close_at _ _ _ _ _ rfl]
  simp

/-- A download whose stream breaks: the error is returned and the bytes
copied so far stay at the local path. -/
theorem readFromBlockStorage_broken {R : Type} (A : Adapter R) (f : GoString) (w : World R)
    (b : Bytes) (e : GoError) (hdir : os.parents w.os.disk (w.tfs.localpath f) = .ok ())
    (hmiss : os.entry w.os.disk (w.tfs.localpath f) = none)
    (hget : A.Get w.remote (w.tfs.objPointer f) 0 = .ok ⟨b, some e⟩) :
    readFromBlockStorage A f w = (.error (.wrap "copying date to file".data e),
      { w with os := { w.os with
          disk := setAt w.os.disk (w.tfs.localpath f) (some (.file b)),
          files := w.os.files ++ [⟨w.tfs.localpath f, b.length, true, true⟩] } }) := by
  unfold readFromBlockStorage
  simp only [hget, os_Create_missing _ _ hdir hmiss, os_Copy_fresh]
  rw [os_Close_at _ _ _ _ _ rfl]

/-- C3 (as stated) fails: the local path of the file `d/f` of the file
system `a` is missing and the adapter's `get` returns the stream of the
bytes 7, 8, but the directory `/base/a/d` does not exist: `Open` returns
the error of `os.Create`, no file is made and the count stays 0. -/
theorem Open_cache_miss_counterexample :
    (worldAt (remoteWith "d/f".data [7, 8])).os.disk
      ((worldAt (remoteWith "d/f".data [7, 8])).tfs.localpath "d/f".data) = none ∧
    (memAdapter false).Get (worldAt (remoteWith "d/f".data [7, 8])).remote
      ((worldAt (remoteWith "d/f".data [7, 8])).tfs.objPointer "d/f".data) 0 =
      .ok ⟨[7, 8], none⟩ ∧
    (Open (memAdapter false) "d/f".data (worldAt (remoteWith "d/f".data [7, 8]))).1 =
      .err (.wrap "creating file".data .ErrNotExist) ∧
    (Open (memAdapter false) "d/f".data (worldAt (remoteWith "d/f".data [7, 8]))).2.os.disk
      "/base/a/d/f".data = none ∧
    (Open (memAdapter false) "d/f".data (worldAt (remoteWith "d/f".data [7, 8]))).2.tfs.refCount
      "d/f".data = 0 := by
  refine ⟨by decide, rfl, rfl, by decide, by decide⟩

/-- C3 (amended): on a cache miss (nothing at `localpath(f)`) where the
directories above `localpath(f)` exist, with the adapter's
`get(objPointer(f), 0)` returning a stream of bytes `b`, `Open(f)` succeeds,
the file at `localpath(f)` then holds exactly `b`, the returned handle reads
exactly `b` from offset 0, and `refCount[f]` is one more than before. -/
theorem Open_cache_miss {R : Type} (A : Adapter R) (f : GoString) (w : World R) (b : Bytes)
    (hdir : os.parents w.os.disk (w.tfs.localpath f) = .ok ())
    (hmiss : os.entry w.os.disk (w.tfs.localpath f) = none)
    (hget : A.Get w.remote (w.tfs.objPointer f) 0 = .ok ⟨b, none⟩) :
    ∃ h : File R, (Open A f w).1 = .ok h ∧
      os.entry (Open A f w).2.os.disk (w.tfs.localpath f) = some (.file b) ∧
      (∀ n : Nat, (h.ReadAt n 0 (Open A f w).2).1 =
        .ok (b.take n, if (b.take n).length < n then some .EOF else none)) ∧
      (h.ReadAt b.length 0 (Open A f w).2).1 = .ok (b, none) ∧
      (∀ n : Nat, 0 < n → b ≠ [] → (h.Read n (Open A f w).2).1 = .ok (b.take n, none)) ∧
      (Open A f w).2.tfs.refCount f = w.tfs.refCount f + 1 := by
  have hopen : os.Open w.os (w.tfs.localpath f) = .error .ErrNotExist :=
    os_Open_missing _ _ hdir hmiss
  obtain ⟨hnd, _⟩ := entry_none hmiss
  simp only [Open, hopen, if_true, readFromBlockStorage_ok A f w b hdir hmiss hget]
  have hat : ∀ n off : Nat, os.ReadAt
      { disk := setAt w.os.disk (w.tfs.localpath f) (some (.file b)),
        files := w.os.files ++ [⟨w.tfs.localpath f, b.length, true, true⟩,
          ⟨w.tfs.localpath f, 0, false, false⟩],
        now := w.os.now } (w.os.files.length + 1) n off =
      ((b.drop off).take n, if ((b.drop off).take n).length < n then some .EOF else none) := by
    intro n off
    have := os_ReadAt_at (setAt w.os.disk (w.tfs.localpath f) (some (.file b))) w.os.now
      (w.os.files ++ [⟨w.tfs.localpath f, b.length, true, true⟩]) []
      ⟨w.tfs.localpath f, 0, false, false⟩ b rfl (by simp [setAt_same]) n off
    simpa using this
  have hrd : ∀ n : Nat, 0 < n → b ≠ [] → (os.Read
      { disk := setAt w.os.disk (w.tfs.localpath f) (some (.file b)),
        files := w.os.files ++ [⟨w.tfs.localpath f, b.length, true, true⟩,
          ⟨w.tfs.localpath f, 0, false, false⟩],
        now := w.os.now } (w.os.files.length + 1) n).1 = (b.take n, none) := by
    intro n hn hb
    have := os_Read_at (setAt w.os.disk (w.tfs.localpath f) (some (.file b))) w.os.now
      (w.os.files ++ [⟨w.tfs.localpath f, b.length, true, true⟩]) []
      ⟨w.tfs.localpath f, 0, false, false⟩ b rfl (by simp [setAt_same]) n hn
      (by simpa using List.length_pos.mpr hb)
    simpa using this
  refine ⟨_, rfl, entry_setAt_same _ _ _ hnd, ?_, ?_, ?_, by simp [setAt_same]⟩
  · intro n
    simp only [File.ReadAt]
    rw [hat]
    simp
  · simp only [File.ReadAt]
    rw [hat]
    simp
  · intro n hn hb
    simp only [File.Read]
    rw [hrd n hn hb]

/-- C3 (amended) at the file `f` of two bytes held by the in-memory store. -/
theorem Open_cache_miss_witness :
    ∃ h : File (ObjectPointer → Option Bytes),
      (Open (memAdapter false) "f".data (worldAt (remoteWith "f".data [7, 8]))).1 = .ok h ∧
      os.entry (Open (memAdapter false) "f".data (worldAt (remoteWith "f".data [7, 8]))).2.os.disk
        "/base/a/f".data = some (.file [7, 8]) :=
  have h := Open_cache_miss (memAdapter false) "f".data (worldAt (remoteWith "f".data [7, 8]))
    [7, 8] rfl rfl rfl
  h.elim fun x hx => ⟨x, hx.1, hx.2.1⟩

end pyramid

namespace pyramid

theorem Open_handle {R : Type} (A : Adapter R) (f : GoString) (w : World R) (h : File R)
    (hopen : (Open A f w).1 = .ok h) :
    h.close = none ∧
    h.release = some (fun w => { w with tfs := { w.tfs with
      refCount := setAt w.tfs.refCount f (w.tfs.refCount f - 1) } }) ∧
    h.size = 0 := by
  unfold Open at hopen
  simp only at hopen
  split at hopen
  · simp at hopen
  · simp only [Result.ok.injEq] at hopen
    subst hopen
    exact ⟨rfl, rfl, rfl⟩

theorem Close_of_Open {R : Type} (A : Adapter R) (f : GoString) (w : World R) (h : File R)
    (hopen : (Open A f w).1 = .ok h) (w2 : World R) :
    h.Close w2 = (.panic, { w2 with tfs := { w2.tfs with
      refCount := setAt w2.tfs.refCount f (w2.tfs.refCount f - 1) } }) := by
  obtain ⟨hc, hr, _⟩ := Open_handle A f w h hopen
  simp [File.Close, hc, hr]

/-- C6, the code at a cache hit (`localpath(f)` resolves to a regular
file): `Open(f)` succeeds and raises `refCount[f]` by one, but the first
`Close` of the returned handle panics on the nil `close` hook after the
release hook has run: `refCount[f]` is back to its value before the `Open`,
and the descriptor is left open. -/
theorem Open_hit_Close_panics {R : Type} (A : Adapter R) (f : GoString) (w : World R)
    (c : Bytes) (hdir : os.parents w.os.disk (w.tfs.localpath f) = .ok ())
    (hhit : os.entry w.os.disk (w.tfs.localpath f) = some (.file c)) :
    ∃ h : File R, (Open A f w).1 = .ok h ∧
      (Open A f w).2.tfs.refCount f = w.tfs.refCount f + 1 ∧
      (h.Close (Open A f w).2).1 = .panic ∧
      (h.Close (Open A f w).2).2.tfs.refCount f = w.tfs.refCount f ∧
      (h.Close (Open A f w).2).2.os.files[h.fh]? =
        some ⟨w.tfs.localpath f, 0, false, false⟩ := by
  have hopen : os.Open w.os (w.tfs.localpath f) = .ok (w.os.files.length,
      { w.os with files := w.os.files ++ [⟨w.tfs.localpath f, 0, false, false⟩] }) :=
    os_Open_present _ _ _ hdir hhit
  have h1 : ∃ h : File R, (Open A f w).1 = .ok h ∧ h.fh = w.os.files.length ∧
      (Open A f w).2 = { w with
        os := { w.os with files := w.os.files ++ [⟨w.tfs.localpath f, 0, false, false⟩] },
        tfs := { w.tfs with refCount := setAt w.tfs.refCount f (w.tfs.refCount f + 1) } } := by
    simp only [Open, hopen]
    refine ⟨_, rfl, ?_, ?_⟩ <;> first | rfl | trivial
  obtain ⟨h, hh, hfh, hw⟩ := h1
  refine ⟨h, hh, ?_, ?_, ?_, ?_⟩
  · rw [hw]; simp [setAt_same]
  · rw [Close_of_Open A f w h hh]
  · rw [Close_of_Open A f w h hh, hw]; simp [setAt_same]
  · rw [Close_of_Open A f w h hh, hw, hfh]
    simp only [getElem?_length_append]

/-- C6 at the file `f` with a local copy of one byte. -/
theorem Open_hit_Close_panics_witness :
    ∃ h : File Unit, (Open downAdapter "f".data hitWorld).1 = .ok h ∧
      (h.Close (Open downAdapter "f".data hitWorld).2).1 = .panic :=
  have h := Open_hit_Close_panics downAdapter "f".data hitWorld [1] rfl rfl
  h.elim fun x hx => ⟨x, hx.1, hx.2.2.1⟩

/-- C5 (as stated) fails: after `Open(f)` the count of `f` is 1; two calls
of `Close` on the returned handle lower it by two, to -1. -/
theorem Close_twice_counterexample :
    (Open downAdapter "f".data hitWorld).1 =
      .ok (handleOf (Open downAdapter "f".data hitWorld).1) ∧
    (Open downAdapter "f".data hitWorld).2.tfs.refCount "f".data = 1 ∧
    ((handleOf (Open downAdapter "f".data hitWorld).1).Close
      ((handleOf (Open downAdapter "f".data hitWorld).1).Close
        (Open downAdapter "f".data hitWorld).2).2).2.tfs.refCount "f".data = -1 := by
  refine ⟨rfl, by decide, by decide⟩

/-- C5 (amended): every call of `Close` on a handle returned by a
successful `Open(f)` runs the release hook and lowers `refCount[f]` by
exactly one, in whatever world it is called; two calls lower it by two in
total. -/
theorem Close_twice_decrements {R : Type} (A : Adapter R) (f : GoString) (w : World R)
    (h : File R) (hopen : (Open A f w).1 = .ok h) (w2 : World R) :
    (h.Close w2).2.tfs.refCount f = w2.tfs.refCount f - 1 ∧
    (h.Close (h.Close w2).2).2.tfs.refCount f = w2.tfs.refCount f - 2 := by
  rw [Close_of_Open A f w h hopen, Close_of_Open A f w h hopen]
  simp only [setAt_same]
  refine ⟨?_, ?_⟩ <;> first | trivial | rfl | omega

/-- C5 (amended) at the file `f` with a local copy of one byte. -/
theorem Close_twice_decrements_witness :
    ((handleOf (Open downAdapter "f".data hitWorld).1).Close
      ((handleOf (Open downAdapter "f".data hitWorld).1).Close
        (Open downAdapter "f".data hitWorld).2).2).2.tfs.refCount "f".data =
      (Open downAdapter "f".data hitWorld).2.tfs.refCount "f".data - 2 :=
  (Close_twice_decrements downAdapter "f".data hitWorld
    (handleOf (Open downAdapter "f".data hitWorld).1) rfl
    (Open downAdapter "f".data hitWorld).2).2

end pyramid

namespace pyramid

theorem Open_present {R : Type} (A : Adapter R) (f : GoString) (w : World R) (nd : Node)
    (hdir : os.parents w.os.disk (w.tfs.localpath f) = .ok ())
    (hhit : os.entry w.os.disk (w.tfs.localpath f) = some nd) :
    ∃ h : File R, (Open A f w).1 = .ok h := by
  simp only [Open, os_Open_present _ _ _ hdir hhit]
  exact ⟨_, rfl⟩

/-- C7, the code on a download that breaks part-way (nothing at
`localpath(f)`, its directory present): `Open(f)` returns the
error and leaves `refCount` and `lastAccess` as they were, but the bytes
copied so far stay as a file at `localpath(f)`, and a following `Open(f)`
succeeds on that partial file. When `get` itself fails, the world is
unchanged. -/
theorem Open_broken_download_leaves_file {R : Type} (A : Adapter R) (f : GoString)
    (w : World R) (b : Bytes) (e : GoError)
    (hdir : os.parents w.os.disk (w.tfs.localpath f) = .ok ())
    (hmiss : os.entry w.os.disk (w.tfs.localpath f) = none)
    (hget : A.Get w.remote (w.tfs.objPointer f) 0 = .ok ⟨b, some e⟩) :
    (Open A f w).1 = .err (.wrap "copying date to file".data e) ∧
    os.entry (Open A f w).2.os.disk (w.tfs.localpath f) = some (.file b) ∧
    (Open A f w).2.tfs.refCount = w.tfs.refCount ∧
    (Open A f w).2.tfs.lastAccess = w.tfs.lastAccess ∧
    (∃ h : File R, (Open A f (Open A f w).2).1 = .ok h) ∧
    (∀ (w' : World R) (e' : GoError),
      os.parents w'.os.disk (w'.tfs.localpath f) = .ok () →
      os.entry w'.os.disk (w'.tfs.localpath f) = none →
      A.Get w'.remote (w'.tfs.objPointer f) 0 = .error e' →
      (Open A f w').1 = .err (.wrap "read from block storage".data e') ∧
      (Open A f w').2 = w') := by
  have hopen : os.Open w.os (w.tfs.localpath f) = .error .ErrNotExist :=
    os_Open_missing _ _ hdir hmiss
  obtain ⟨hnd, hraw⟩ := entry_none hmiss
  have hO : Open A f w = (.err (.wrap "copying date to file".data e),
      { w with os := { w.os with
          disk := setAt w.os.disk (w.tfs.localpath f) (some (.file b)),
          files := w.os.files ++ [⟨w.tfs.localpath f, b.length, true, true⟩] } }) := by
    simp only [Open, hopen, if_true, readFromBlockStorage_broken A f w b e hdir hmiss hget]
  refine ⟨by rw [hO], by rw [hO]; exact entry_setAt_same _ _ _ hnd, by rw [hO], by rw [hO],
    ?_, ?_⟩
  · rw [hO]
    exact Open_present A f _ (.file b)
      (parents_setAt _ _ _ _ (by rw [hraw]; simp) hdir) (entry_setAt_same _ _ _ hnd)
  · intro w' e' hdir' hmiss' hget'
    have hopen' : os.Open w'.os (w'.tfs.localpath f) = .error .ErrNotExist :=
      os_Open_missing _ _ hdir' hmiss'
    simp only [Open, hopen', if_true, readFromBlockStorage, hget']
    exact ⟨trivial, trivial⟩

/-- C7 at a stream that delivers two bytes and then fails. -/
theorem Open_broken_download_leaves_file_witness :
    (Open streamAdapter "f".data (worldAt ⟨[1, 2], some (.adapter 500)⟩)).1 =
      .err (.wrap "copying date to file".data (.adapter 500)) ∧
    os.entry (Open streamAdapter "f".data (worldAt ⟨[1, 2], some (.adapter 500)⟩)).2.os.disk
      "/base/a/f".data = some (.file [1, 2]) :=
  have h := Open_broken_download_leaves_file streamAdapter "f".data
    (worldAt ⟨[1, 2], some (.adapter 500)⟩) [1, 2] (.adapter 500) rfl rfl rfl
  ⟨h.1, h.2.1⟩

end pyramid

namespace pyramid

/-- The state after `Create(f)` and one `Write` of `p`. -/
theorem writeOnce_eq {R : Type} (A : Adapter R) (f : GoString) (p : Bytes) (w : World R)
    (hdir : os.parents w.os.disk (w.tfs.localpath f) = .ok ())
    (hfree : os.entry w.os.disk (w.tfs.localpath f) ≠ some .dir) :
    (Create A f w).1 = .ok (handleOf (Create A f w).1) ∧
    (handleOf (Create A f w).1).fh = w.os.files.length ∧
    (writeOnce A f p w).1 = .ok (p.length, none) ∧
    (writeOnce A f p w).2.1.size = p.length ∧
    (writeOnce A f p w).2.1.fh = w.os.files.length ∧
    (writeOnce A f p w).2.2 = { w with os := { w.os with
      disk := setAt w.os.disk (w.tfs.localpath f) (some (.file p)),
      files := w.os.files ++ [⟨w.tfs.localpath f, p.length, true, false⟩] } } ∧
    (writeOnce A f p w).2.1.release = some (fun w => w) ∧
    (writeOnce A f p w).2.1.close = some (fun size w' =>
      match A.Put w'.remote (w'.tfs.objPointer f) size (os.reader w'.os w.os.files.length) with
      | (e, r1) => (e, { w' with remote := r1 })) := by
  have hc := os_Create_free w.os (w.tfs.localpath f) hdir hfree
  have hw : os.Write { w.os with
        disk := setAt w.os.disk (w.tfs.localpath f) (some (.file [])),
        files := w.os.files ++ [⟨w.tfs.localpath f, 0, true, false⟩] }
      w.os.files.length p =
      ((p.length, none), { w.os with
        disk := setAt w.os.disk (w.tfs.localpath f) (some (.file p)),
        files := w.os.files ++ [⟨w.tfs.localpath f, p.length, true, false⟩] }) := by
    simp [os.Write, os.content, os.setFile, setAt_same, setAt_setAt,
      getElem?_length_append, set_length_append]
  simp only [writeOnce, Create, hc, handleOf, File.Write, hw]
  simp

theorem Close_with_hooks {R : Type} (h : File R) (w2 : World R)
    (g : Int → World R → Option GoError × World R)
    (hrel : h.release = some (fun w => w)) (hcl : h.close = some g) :
    h.Close w2 =
      (match g h.size w2 with
       | (some err, w3) => (.err err, w3)
       | (none, w3) =>
         match os.Close w3.os h.fh with
         | (some err, o3) => (.err err, { w3 with os := o3 })
         | (none, o3) => (.ok (), { w3 with os := o3 })) := by
  simp only [File.Close, hrel, hcl]

/-- The `Close` after `Create(f)` and one `Write` of `p`. -/
theorem writeOnce_Close {R : Type} (A : Adapter R) (f : GoString) (p : Bytes)
    (w : World R) (hdir : os.parents w.os.disk (w.tfs.localpath f) = .ok ())
    (hfree : os.entry w.os.disk (w.tfs.localpath f) ≠ some .dir) :
    (writeOnce A f p w).2.1.Close (writeOnce A f p w).2.2 =
      (match A.Put w.remote (w.tfs.objPointer f) p.length ⟨[], none⟩ with
       | (some e, r1) => (.err e, { (writeOnce A f p w).2.2 with remote := r1 })
       | (none, r1) => (.ok (), { w with remote := r1, os := { w.os with
          disk := setAt w.os.disk (w.tfs.localpath f) (some (.file p)),
          files := w.os.files ++ [⟨w.tfs.localpath f, p.length, true, true⟩] } })) := by
  obtain ⟨_, _, _, h2, h3, h4, h5, h6⟩ := writeOnce_eq A f p w hdir hfree
  have hr : os.reader { w.os with
        disk := setAt w.os.disk (w.tfs.localpath f) (some (.file p)),
        files := w.os.files ++ [⟨w.tfs.localpath f, p.length, true, false⟩] }
      w.os.files.length = ⟨[], none⟩ := by
    have := os_reader_at (setAt w.os.disk (w.tfs.localpath f) (some (.file p))) w.os.now
      w.os.files [] ⟨w.tfs.localpath f, p.length, true, false⟩ p rfl (by simp [setAt_same])
    simpa using this
  have hcl : os.Close { w.os with
        disk := setAt w.os.disk (w.tfs.localpath f) (some (.file p)),
        files := w.os.files ++ [⟨w.tfs.localpath f, p.length, true, false⟩] }
      w.os.files.length = (none, { w.os with
        disk := setAt w.os.disk (w.tfs.localpath f) (some (.file p)),
        files := w.os.files ++ [⟨w.tfs.localpath f, p.length, true, true⟩] }) :=
    os_Close_at _ _ _ _ _ rfl
  rw [Close_with_hooks _ _ _ h5 h6, h2, h3, h4, hr]
  generalize A.Put w.remote (w.tfs.objPointer f) p.length ⟨[], none⟩ = pr
  obtain ⟨e, r1⟩ := pr
  cases e with
  | some e => rfl
  | none =>
    show (match os.Close _ w.os.files.length with
      | (some err, o3) => _
      | (none, o3) => _) = _
    rw [hcl]

/-- C2, the code at `Close` after `Create(f)` and a `Write` of `p`, where
`localpath(f)` can be created (its directory is present and it is not a
directory itself): the
put is under `objPointer(f)` with declared size `len(p)`, but the stream
handed to the adapter is the descriptor at its current position, the end of
the file, so it delivers no byte at all; the remote state after `Close` is
what `Put` makes of the empty stream. -/
theorem Create_Close_uploads_from_end {R : Type} (A : Adapter R) (f : GoString) (p : Bytes)
    (w : World R) (hdir : os.parents w.os.disk (w.tfs.localpath f) = .ok ())
    (hfree : os.entry w.os.disk (w.tfs.localpath f) ≠ some .dir) :
    (writeOnce A f p w).1 = .ok (p.length, none) ∧
    (writeOnce A f p w).2.1.size = p.length ∧
    (writeOnce A f p w).2.2.os.disk (w.tfs.localpath f) = some (.file p) ∧
    os.reader (writeOnce A f p w).2.2.os (writeOnce A f p w).2.1.fh = ⟨[], none⟩ ∧
    ((writeOnce A f p w).2.1.Close (writeOnce A f p w).2.2).2.remote =
      (A.Put w.remote (w.tfs.objPointer f) p.length ⟨[], none⟩).2 ∧
    ((A.Put w.remote (w.tfs.objPointer f) p.length ⟨[], none⟩).1 = none →
      ((writeOnce A f p w).2.1.Close (writeOnce A f p w).2.2).1 = .ok ()) := by
  obtain ⟨_, _, h1, h2, h3, h4, h5, h6⟩ := writeOnce_eq A f p w hdir hfree
  have hr : os.reader { w.os with
        disk := setAt w.os.disk (w.tfs.localpath f) (some (.file p)),
        files := w.os.files ++ [⟨w.tfs.localpath f, p.length, true, false⟩] }
      w.os.files.length = ⟨[], none⟩ := by
    have := os_reader_at (setAt w.os.disk (w.tfs.localpath f) (some (.file p))) w.os.now
      w.os.files [] ⟨w.tfs.localpath f, p.length, true, false⟩ p rfl (by simp [setAt_same])
    simpa using this
  have hclose := writeOnce_Close A f p w hdir hfree
  refine ⟨h1, h2, by rw [h4]; simp [setAt_same], by rw [h4, h3]; exact hr, ?_, ?_⟩
  · rw [hclose]
    cases hp : A.Put w.remote (w.tfs.objPointer f) p.length ⟨[], none⟩ with
    | mk e r1 =>
      cases e with
      | some e => rfl
      | none => rfl
  · intro hput
    rw [hclose]
    cases hp : A.Put w.remote (w.tfs.objPointer f) p.length ⟨[], none⟩ with
    | mk e r1 =>
      rw [hp] at hput
      simp only at hput
      subst hput
      rfl

/-- C2 at the file `f` and three written bytes, with the in-memory store:
`Close` succeeds and the remote object of `f` is empty. -/
theorem Create_Close_uploads_from_end_witness :
    os.reader (writeOnce (memAdapter false) "f".data [1, 2, 3] (worldAt fun _ => none)).2.2.os
      (writeOnce (memAdapter false) "f".data [1, 2, 3] (worldAt fun _ => none)).2.1.fh
      = ⟨[], none⟩ ∧
    ((writeOnce (memAdapter false) "f".data [1, 2, 3] (worldAt fun _ => none)).2.1.Close
      (writeOnce (memAdapter false) "f".data [1, 2, 3] (worldAt fun _ => none)).2.2).2.remote
      ((tierFSAt "a".data).objPointer "f".data) = some [] :=
  have h := Create_Close_uploads_from_end (memAdapter false) "f".data [1, 2, 3]
    (worldAt fun _ => none) rfl (by decide)
  ⟨h.2.2.2.1, by rw [h.2.2.2.2.1]; decide⟩

end pyramid

namespace pyramid

/-- The round trip with the local copy removed after the `Close`, as a
function of the length of the payload. -/
theorem roundTrip_evicted_eq {R : Type} (A : Adapter R) (f : GoString) (p : Bytes)
    (w : World R) (hdir : os.parents w.os.disk (w.tfs.localpath f) = .ok ())
    (hfree : os.entry w.os.disk (w.tfs.localpath f) ≠ some .dir) :
    roundTrip A f p true w =
      (match A.Put w.remote (w.tfs.objPointer f) p.length ⟨[], none⟩ with
       | (some e, _) => .err e
       | (none, r1) => readBack A f false (p.length + 2)
          { w with remote := r1, os := { w.os with
            disk := setAt w.os.disk (w.tfs.localpath f) none,
            files := w.os.files ++ [⟨w.tfs.localpath f, p.length, true, true⟩] } }) := by
  obtain ⟨hc, _, h1, _⟩ := writeOnce_eq A f p w hdir hfree
  obtain ⟨hnd, hraw⟩ := entry_ne_dir hfree
  have hpar : os.parents (setAt w.os.disk (w.tfs.localpath f) (some (.file p)))
      (w.tfs.localpath f) = .ok () := parents_setAt _ _ _ _ hraw hdir
  have hent : os.entry (setAt w.os.disk (w.tfs.localpath f) (some (.file p)))
      (w.tfs.localpath f) = some (.file p) := entry_setAt_same _ _ _ hnd
  unfold roundTrip
  rw [hc, h1, writeOnce_Close A f p w hdir hfree]
  generalize A.Put w.remote (w.tfs.objPointer f) p.length ⟨[], none⟩ = pr
  obtain ⟨e, r1⟩ := pr
  cases e with
  | some e => rfl
  | none =>
    simp only [readBack, os.Remove, hpar, hent, setAt_setAt, if_true]
    rfl

/-- C1, the code on the round trip with the local copy removed after the
`Close`, where `localpath(f)` can be created: for every adapter, what `Open(f)` reads back depends on the
payload only through its length, because `Close` uploads the descriptor
from the end of the file; two different payloads of the same length give
the same result, so the round trip cannot return both. -/
theorem roundTrip_after_eviction {R : Type} (A : Adapter R) (f : GoString) (p p' : Bytes)
    (w : World R) (hdir : os.parents w.os.disk (w.tfs.localpath f) = .ok ())
    (hfree : os.entry w.os.disk (w.tfs.localpath f) ≠ some .dir)
    (hlen : p.length = p'.length) :
    roundTrip A f p true w = roundTrip A f p' true w := by
  rw [roundTrip_evicted_eq A f p w hdir hfree, roundTrip_evicted_eq A f p' w hdir hfree, hlen]

/-- C1 at the file `f` and the payload of the bytes 1, 2, 3 with the
in-memory store: with the local copy present the payload is read back; with
the local copy removed the object read back is empty, as for any other
payload of three bytes; a store that refuses a stream shorter than the
declared size makes `Close` fail. -/
theorem roundTrip_after_eviction_witness :
    roundTrip (memAdapter false) "f".data [1, 2, 3] true (worldAt fun _ => none) =
      roundTrip (memAdapter false) "f".data [4, 5, 6] true (worldAt fun _ => none) ∧
    roundTrip (memAdapter false) "f".data [1, 2, 3] false (worldAt fun _ => none)
      = .ok [1, 2, 3] ∧
    roundTrip (memAdapter false) "f".data [1, 2, 3] true (worldAt fun _ => none)
      = .ok [] ∧
    roundTrip (memAdapter true) "f".data [1, 2, 3] true (worldAt fun _ => none)
      = .err (.adapter 400) :=
  ⟨roundTrip_after_eviction (memAdapter false) "f".data [1, 2, 3] [4, 5, 6]
      (worldAt fun _ => none) rfl (by decide) (by decide),
    by decide, by decide, by decide⟩

end pyramid
end LakeFS
